import Mathlib

/-!
# Verification of the front-end utility layer

A shallow embedding of `src/utils.js` (helpers `isEmpty`, `isValidPassword`,
`apiRequest`, `get`, `post`, `put`, `del`) and of the two authentication
wrappers `signInUser` / `signOutUser` of `src/firebase-config.js`.

JavaScript values are a tree-shaped datatype; effects (the `fetch` call and the
console) are recorded in an explicit event trace; a rejected promise / thrown
exception is the `Except.error` branch of the result.  `JSON.stringify` and
`JSON.parse` are modelled on that datatype.
-/

set_option autoImplicit false

namespace Utils

/-! ## Values -/

/-- An integer that a JavaScript number holds exactly (`Number.isSafeInteger`);
such a number prints in plain decimal. -/
structure SafeInt where
  val : Int
  safe : val.natAbs ≤ 9007199254740991

/-- JavaScript values that the helpers handle: the JSON-representable values,
`undefined`, and `BigInt` values (which `JSON.stringify` refuses).  Numbers are
the safe integers; strings are sequences of Unicode scalar values; an object is
the list of its own properties in enumeration order. -/
inductive JsValue where
  | null : JsValue
  | undefined : JsValue
  | bool (b : Bool) : JsValue
  | num (n : SafeInt) : JsValue
  | bigint (n : Int) : JsValue
  | str (s : String) : JsValue
  | arr (items : List JsValue) : JsValue
  | obj (fields : List (String × JsValue)) : JsValue

/-- An error object: its `name` (`Error`, `TypeError`, `SyntaxError`, ...) and
its `message`. -/
structure JsError where
  name : String
  message : String

/-- Truthiness (`ToBoolean`): what `if (v)` and `v || w` test. -/
def truthy : JsValue → Bool
  | .null => false
  | .undefined => false
  | .bool b => b
  | .num n => n.val != 0
  | .bigint n => n != 0
  | .str s => s != ""
  | .arr _ => true
  | .obj _ => true

/-- Decimal text of an integer, as `Number.prototype.toString` and
`BigInt.prototype.toString` give it. -/
def intChars (i : Int) : List Char :=
  if i < 0 then '-' :: Nat.toDigits 10 i.natAbs else Nat.toDigits 10 i.natAbs

/-- Joins strings with a separator, as `Array.prototype.join` does. -/
def joinWith (sep : String) : List String → String
  | [] => ""
  | [s] => s
  | s :: rest => s ++ sep ++ joinWith sep rest

/-- Whether an object has the own property `k`. -/
def hasOwn (k : String) : List (String × JsValue) → Bool
  | [] => false
  | (k', _) :: rest => k' == k || hasOwn k rest

mutual
/-- String conversion (`ToString`) as a template literal applies it.  An array
is joined with commas; a plain object gives `[object Object]` through
`Object.prototype.toString`, unless an own `toString` property (never callable
here) shadows that method, in which case the conversion throws. -/
def toStr : JsValue → Except JsError String
  | .null => .ok "null"
  | .undefined => .ok "undefined"
  | .bool true => .ok "true"
  | .bool false => .ok "false"
  | .num n => .ok (String.mk (intChars n.val))
  | .bigint n => .ok (String.mk (intChars n))
  | .str s => .ok s
  | .arr items =>
    match toStrItems items with
    | .error e => .error e
    | .ok parts => .ok (joinWith "," parts)
  | .obj fields =>
    if hasOwn "toString" fields then
      .error ⟨"TypeError", "Cannot convert object to primitive value"⟩
    else .ok "[object Object]"
/-- String conversion of the elements of an array: `null` and `undefined`
elements become the empty string. -/
def toStrItems : List JsValue → Except JsError (List String)
  | [] => .ok []
  | v :: rest =>
    match (match v with
      | .null => Except.ok ""
      | .undefined => Except.ok ""
      | w => toStr w) with
    | .error e => .error e
    | .ok s =>
      match toStrItems rest with
      | .error e => .error e
      | .ok parts => .ok (s :: parts)
end

/-! ## 1. Common helper functions -/

/-- The characters removed by `String.prototype.trim`: ECMAScript `WhiteSpace`
and `LineTerminator`. -/
def isJsWhitespace (c : Char) : Bool :=
  let n := c.toNat
  n == 0x09 || n == 0x0A || n == 0x0B || n == 0x0C || n == 0x0D || n == 0x20 ||
  n == 0xA0 || n == 0x1680 || (0x2000 ≤ n && n ≤ 0x200A) || n == 0x2028 ||
  n == 0x2029 || n == 0x202F || n == 0x205F || n == 0x3000 || n == 0xFEFF

/-- `String.prototype.trim`: strips whitespace from both ends. -/
def trim (s : String) : String :=
  String.mk (((s.toList.dropWhile isJsWhitespace).reverse.dropWhile isJsWhitespace).reverse)

/-- `isEmpty` (utils.js 16-23). -/
def isEmpty : JsValue → Bool
  | .null => true
  | .undefined => true
  | .str s => trim s == ""
  | .arr items => items.length == 0
  | _ => false

/-! ## 2. Form validation -/

/-- `String.prototype.length`: the number of UTF-16 code units. -/
def jsLength (s : String) : Nat :=
  s.toList.foldl (fun n c => n + (if c.toNat < 0x10000 then 1 else 2)) 0

/-- `/[A-Z]/.test(s)`. -/
def testUppercase (s : String) : Bool :=
  s.toList.any (fun c => 'A'.toNat ≤ c.toNat && c.toNat ≤ 'Z'.toNat)

/-- `/[0-9]/.test(s)`. -/
def testDigit (s : String) : Bool :=
  s.toList.any (fun c => '0'.toNat ≤ c.toNat && c.toNat ≤ '9'.toNat)

/-- A JavaScript number as a comparison sees it: `NaN`, an infinity, or a
finite value (every finite double is a rational). -/
inductive JsNumber where
  | nan : JsNumber
  | posInf : JsNumber
  | negInf : JsNumber
  | finite (q : ℚ) : JsNumber

/-- The comparison `len < x` for a string length `len`: `false` when `x` is
`NaN`. -/
def lengthLessThan (len : Nat) : JsNumber → Bool
  | .nan => false
  | .posInf => true
  | .negInf => false
  | .finite q => decide ((len : ℚ) < q)

/-- The `options` argument of `isValidPassword`; `none` is an omitted
(`undefined`) property. -/
structure PasswordOptions where
  minLength : Option JsNumber := none
  requireUppercase : Option Bool := none
  requireNumber : Option Bool := none

/-- `isValidPassword` (utils.js 56-72). -/
def isValidPassword (password : String) (options : PasswordOptions := {}) : Bool :=
  let minLength := options.minLength.getD (.finite 8)
  let requireUppercase := options.requireUppercase.getD false
  let requireNumber := options.requireNumber.getD false
  if lengthLessThan (jsLength password) minLength then
    false
  else if requireUppercase && !testUppercase password then
    false
  else if requireNumber && !testDigit password then
    false
  else
    true

/-- The mathematical reading of "the length is at least `x`": it holds for no
length when `x` is `NaN`. -/
def lengthAtLeast (len : Nat) : JsNumber → Bool
  | .nan => false
  | .posInf => false
  | .negInf => true
  | .finite q => decide (q ≤ (len : ℚ))

/-! ## Objects -/

/-- A plain object with values of type `α`: its own properties in enumeration
order. -/
abbrev JsObject (α : Type) := List (String × α)

/-- Property read `o[k]`; `none` when `k` is not an own property. -/
def JsObject.get {α : Type} (o : JsObject α) (k : String) : Option α :=
  match o with
  | [] => none
  | (k', v) :: rest => if k' = k then some v else JsObject.get rest k

/-- Property write `o[k] = v`: overwrites in place, or appends a new key. -/
def JsObject.set {α : Type} (o : JsObject α) (k : String) (v : α) : JsObject α :=
  match o with
  | [] => [(k, v)]
  | (k', v') :: rest => if k' = k then (k', v) :: rest else (k', v') :: JsObject.set rest k v

/-- Object spread `{ ...target, ...source }` into an object under construction:
every own property of `source` is written to `target` in order. -/
def JsObject.spread {α : Type} (target source : JsObject α) : JsObject α :=
  source.foldl (fun acc kv => JsObject.set acc kv.1 kv.2) target

/-- The own keys of an object. -/
def JsObject.keys {α : Type} (o : JsObject α) : List String :=
  o.map Prod.fst

/-! ## JSON.stringify -/

/-- Lower-case hexadecimal digit of a number below 16. -/
def hexDigit (n : Nat) : Char :=
  if n < 10 then Char.ofNat (48 + n) else Char.ofNat (87 + n)

/-- JSON escape of one character of a string (`QuoteJSONString`). -/
def quoteChar (c : Char) : List Char :=
  if c = '"' then ['\\', '"']
  else if c = '\\' then ['\\', '\\']
  else if c = Char.ofNat 8 then ['\\', 'b']
  else if c = Char.ofNat 12 then ['\\', 'f']
  else if c = '\n' then ['\\', 'n']
  else if c = '\r' then ['\\', 'r']
  else if c = '\t' then ['\\', 't']
  else if c.toNat < 32 then
    ['\\', 'u', '0', '0', hexDigit (c.toNat / 16), hexDigit (c.toNat % 16)]
  else [c]

/-- The escaped characters of a string, without the surrounding quotes. -/
def quoteBody : List Char → List Char
  | [] => []
  | c :: rest => quoteChar c ++ quoteBody rest

/-- JSON string literal for the characters `s`. -/
def quoteChars (s : List Char) : List Char :=
  '"' :: (quoteBody s ++ ['"'])

/-- Comma-separated concatenation of already serialised parts. -/
def joinChars : List (List Char) → List Char
  | [] => []
  | [p] => p
  | p :: q :: rest => p ++ ',' :: joinChars (q :: rest)

mutual
/-- `SerializeJSONProperty`: the JSON text of a value, `none` for `undefined`
(which has no JSON text), or the `TypeError` thrown at a `BigInt`. -/
def serializeValue : JsValue → Except JsError (Option (List Char))
  | .undefined => .ok none
  | .null => .ok (some ['n', 'u', 'l', 'l'])
  | .bool true => .ok (some ['t', 'r', 'u', 'e'])
  | .bool false => .ok (some ['f', 'a', 'l', 's', 'e'])
  | .num n => .ok (some (intChars n.val))
  | .bigint _ => .error ⟨"TypeError", "Do not know how to serialize a BigInt"⟩
  | .str s => .ok (some (quoteChars s.toList))
  | .arr items =>
    match serializeItems items with
    | .error e => .error e
    | .ok parts => .ok (some ('[' :: (joinChars parts ++ [']'])))
  | .obj fields =>
    match serializeFields fields with
    | .error e => .error e
    | .ok parts => .ok (some ('\x7b' :: (joinChars parts ++ ['\x7d'])))
/-- Array elements, in order: `undefined` is written `null`. -/
def serializeItems : List JsValue → Except JsError (List (List Char))
  | [] => .ok []
  | v :: rest =>
    match serializeValue v with
    | .error e => .error e
    | .ok part =>
      match serializeItems rest with
      | .error e => .error e
      | .ok parts => .ok (part.getD ['n', 'u', 'l', 'l'] :: parts)
/-- Object members, in order: a member whose value is `undefined` is left
out. -/
def serializeFields : List (String × JsValue) → Except JsError (List (List Char))
  | [] => .ok []
  | (k, v) :: rest =>
    match serializeValue v with
    | .error e => .error e
    | .ok none => serializeFields rest
    | .ok (some text) =>
      match serializeFields rest with
      | .error e => .error e
      | .ok parts => .ok ((quoteChars k.toList ++ ':' :: text) :: parts)
end

/-- `JSON.stringify(value)`: the JSON text, `undefined` (here `none`) for
`undefined`, or the error thrown. -/
def jsonStringify (value : JsValue) : Except JsError (Option String) :=
  match serializeValue value with
  | .error e => .error e
  | .ok none => .ok none
  | .ok (some text) => .ok (some (String.mk text))

/-! ## JSON.parse -/

/-- JSON insignificant whitespace. -/
def isJsonWs (c : Char) : Bool :=
  c = ' ' || c = '\t' || c = '\n' || c = '\r'

/-- Drops leading whitespace. -/
def skipWs : List Char → List Char
  | [] => []
  | c :: rest => if isJsonWs c then skipWs rest else c :: rest

/-- Whether `c` is a decimal digit. -/
def isDigit (c : Char) : Bool :=
  48 ≤ c.toNat && c.toNat ≤ 57

/-- Splits off the longest prefix of decimal digits. -/
def spanDigits : List Char → List Char × List Char
  | [] => ([], [])
  | c :: rest =>
    if isDigit c then ((c :: (spanDigits rest).1), (spanDigits rest).2)
    else ([], c :: rest)

/-- Value of a run of decimal digits. -/
def digitsToNat (digits : List Char) : Nat :=
  digits.foldl (fun acc c => acc * 10 + (c.toNat - 48)) 0

/-- Whether the input goes on with a fraction or an exponent. -/
def startsFraction : List Char → Bool
  | [] => false
  | c :: _ => c = '.' || c = 'e' || c = 'E'

/-- A JSON number whose literal is a safe integer.  A literal with a fraction
or an exponent, or beyond the safe range, denotes a number outside `SafeInt`
and yields `none`, as does a malformed literal. -/
def parseNumber (input : List Char) : Option (SafeInt × List Char) :=
  let negative : Bool :=
    match input with
    | [] => false
    | c :: _ => c = '-'
  let unsigned := if negative then input.tail else input
  match (spanDigits unsigned).1 with
  | [] => none
  | d :: more =>
    if d = '0' ∧ more ≠ [] then none
    else if startsFraction (spanDigits unsigned).2 then none
    else
      let magnitude : Int := (digitsToNat (d :: more) : Nat)
      let value : Int := if negative then -magnitude else magnitude
      if h : value.natAbs ≤ 9007199254740991 then
        some (⟨value, h⟩, (spanDigits unsigned).2)
      else none

/-- Value of a hexadecimal digit. -/
def hexValue (c : Char) : Option Nat :=
  if 48 ≤ c.toNat ∧ c.toNat ≤ 57 then some (c.toNat - 48)
  else if 97 ≤ c.toNat ∧ c.toNat ≤ 102 then some (c.toNat - 87)
  else if 65 ≤ c.toNat ∧ c.toNat ≤ 70 then some (c.toNat - 55)
  else none

/-- Value of four hexadecimal digits. -/
def hex4 (a b c d : Char) : Option Nat :=
  match hexValue a, hexValue b, hexValue c, hexValue d with
  | some x, some y, some z, some w => some (((x * 16 + y) * 16 + z) * 16 + w)
  | _, _, _, _ => none

/-- The character a two-character escape stands for. -/
def unescapeChar (c : Char) : Option Char :=
  if c = '"' then some '"'
  else if c = '\\' then some '\\'
  else if c = '/' then some '/'
  else if c = 'b' then some (Char.ofNat 8)
  else if c = 'f' then some (Char.ofNat 12)
  else if c = 'n' then some '\n'
  else if c = 'r' then some '\r'
  else if c = 't' then some '\t'
  else none

/-- The character an escape sequence stands for (the input starts after the
backslash), with the input after the sequence.  An escaped surrogate code unit
has no counterpart among the scalar values and yields `none`. -/
def parseEscape : List Char → Option (Char × List Char)
  | [] => none
  | e :: rest =>
    if e = 'u' then
      match rest with
      | h1 :: h2 :: h3 :: h4 :: rest2 =>
        match hex4 h1 h2 h3 h4 with
        | none => none
        | some n => if 0xD800 ≤ n ∧ n ≤ 0xDFFF then none else some (Char.ofNat n, rest2)
      | _ => none
    else
      match unescapeChar e with
      | none => none
      | some ch => some (ch, rest)

/-- The rest of a string literal after its opening quote, reading at most
`fuel` characters or escape sequences. -/
def parseStringFuel : Nat → List Char → Option (List Char × List Char)
  | 0, _ => none
  | _ + 1, [] => none
  | fuel + 1, c :: rest =>
    if c = '"' then some ([], rest)
    else if c = '\\' then
      match parseEscape rest with
      | none => none
      | some (ch, rest1) =>
        match parseStringFuel fuel rest1 with
        | none => none
        | some (chars, after) => some (ch :: chars, after)
    else if c.toNat < 32 then none
    else
      match parseStringFuel fuel rest with
      | none => none
      | some (chars, after) => some (c :: chars, after)

/-- The rest of a string literal after its opening quote: the characters it
denotes and the input after the closing quote. -/
def parseStringBody (input : List Char) : Option (List Char × List Char) :=
  parseStringFuel input.length input

/-- Removes the keyword `word` from the front of the input. -/
def expectWord : List Char → List Char → Option (List Char)
  | [], input => some input
  | _ :: _, [] => none
  | w :: word, c :: input => if w = c then expectWord word input else none

mutual
/-- One JSON value at the front of the input (no leading whitespace), with the
input that follows it.  The first argument bounds the number of nested calls;
the length of the input is enough. -/
def parseValue : Nat → List Char → Option (JsValue × List Char)
  | 0, _ => none
  | fuel + 1, input =>
    match input with
    | [] => none
    | c :: rest =>
      if c = '-' ∨ isDigit c = true then
        match parseNumber (c :: rest) with
        | none => none
        | some (n, after) => some (.num n, after)
      else if c = '"' then
        match parseStringBody rest with
        | none => none
        | some (chars, after) => some (.str (String.mk chars), after)
      else if c = 'n' then
        match expectWord ['u', 'l', 'l'] rest with
        | none => none
        | some after => some (.null, after)
      else if c = 't' then
        match expectWord ['r', 'u', 'e'] rest with
        | none => none
        | some after => some (.bool true, after)
      else if c = 'f' then
        match expectWord ['a', 'l', 's', 'e'] rest with
        | none => none
        | some after => some (.bool false, after)
      else if c = '[' then
        match skipWs rest with
        | [] => none
        | d :: rest1 =>
          if d = ']' then some (.arr [], rest1)
          else
            match parseElements fuel (d :: rest1) with
            | none => none
            | some (items, after) => some (.arr items, after)
      else if c = '\x7b' then
        match skipWs rest with
        | [] => none
        | d :: rest1 =>
          if d = '\x7d' then some (.obj [], rest1)
          else
            match parseMembers fuel (d :: rest1) with
            | none => none
            | some (members, after) => some (.obj (JsObject.spread [] members), after)
      else none
/-- The elements of a non-empty array up to and including the closing
bracket. -/
def parseElements : Nat → List Char → Option (List JsValue × List Char)
  | 0, _ => none
  | fuel + 1, input =>
    match parseValue fuel input with
    | none => none
    | some (v, after) =>
      match skipWs after with
      | [] => none
      | d :: rest =>
        if d = ',' then
          match parseElements fuel (skipWs rest) with
          | none => none
          | some (items, after1) => some (v :: items, after1)
        else if d = ']' then some ([v], rest)
        else none
/-- The members of a non-empty object up to and including the closing brace,
in the order of the text. -/
def parseMembers : Nat → List Char → Option (List (String × JsValue) × List Char)
  | 0, _ => none
  | fuel + 1, input =>
    match input with
    | [] => none
    | q :: rest =>
      if q = '"' then
        match parseStringBody rest with
        | none => none
        | some (key, after) =>
          match skipWs after with
          | [] => none
          | colon :: rest1 =>
            if colon = ':' then
              match parseValue fuel (skipWs rest1) with
              | none => none
              | some (v, after1) =>
                match skipWs after1 with
                | [] => none
                | d :: rest2 =>
                  if d = ',' then
                    match parseMembers fuel (skipWs rest2) with
                    | none => none
                    | some (members, after2) => some ((String.mk key, v) :: members, after2)
                  else if d = '\x7d' then some ([(String.mk key, v)], rest2)
                  else none
            else none
      else none
end

/-- `JSON.parse(text)` on the texts that denote a value of `JsValue`: the
value, or `none` when the text is malformed or denotes a value outside
`JsValue`.  An object takes its members in text order, a repeated key keeping
its first position and its last value. -/
def jsonParse (text : String) : Option JsValue :=
  match parseValue (text.length + 1) (skipWs text.toList) with
  | none => none
  | some (v, after) => if skipWs after = [] then some v else none

/-- Whether the input ends here or goes on with a separator or a closing
bracket, as the text after a serialised value does. -/
def terminated : List Char → Bool
  | [] => true
  | c :: _ => c = ',' || c = ']' || c = '\x7d'

mutual
/-- Whether a value is JSON-representable: no `undefined` and no `BigInt`
anywhere inside, and no object with a repeated key. -/
def jsonRepresentable : JsValue → Bool
  | .null => true
  | .undefined => false
  | .bool _ => true
  | .num _ => true
  | .bigint _ => false
  | .str _ => true
  | .arr items => itemsRepresentable items
  | .obj fields => fieldsRepresentable fields && decide ((fields.map Prod.fst).Nodup)
/-- All elements are JSON-representable. -/
def itemsRepresentable : List JsValue → Bool
  | [] => true
  | v :: rest => jsonRepresentable v && itemsRepresentable rest
/-- All member values are JSON-representable. -/
def fieldsRepresentable : List (String × JsValue) → Bool
  | [] => true
  | (_, v) :: rest => jsonRepresentable v && fieldsRepresentable rest
end

/-! ## 3. API call helpers -/

/-- The `options` object handed to `fetch`; `body = none` means that the
property is absent (or `undefined`). -/
structure RequestInit where
  method : String
  headers : JsObject String
  body : Option String

/-- What the transport yields when it completes: `ok`, `status`, `statusText`
and the outcome of the body-decode operation `response.json()`. -/
structure Response where
  ok : Bool
  status : Nat
  statusText : String
  json : Except JsError JsValue

/-- The host environment the helper runs in: `fetch`, whose outcome is either
a rejection or a response. -/
structure Host where
  fetch : String → RequestInit → Except JsError Response

/-- Observable effects, in the order they happen. -/
inductive Event where
  | fetch (url : String) (options : RequestInit) : Event
  | consoleError (label : String) (error : JsError) : Event
  | consoleLog (text : String) : Event

/-- Property read `v.message` on an arbitrary value: throws a `TypeError` on
`null` and `undefined`, is `undefined` when the property is missing. -/
def getMessage : JsValue → Except JsError JsValue
  | .null => .error ⟨"TypeError", "Cannot read properties of null (reading 'message')"⟩
  | .undefined => .error ⟨"TypeError", "Cannot read properties of undefined (reading 'message')"⟩
  | .obj fields => .ok ((JsObject.get fields "message").getD .undefined)
  | _ => .ok .undefined

/-- `new Error(message)`. -/
def newError (message : String) : JsError :=
  ⟨"Error", message⟩

/-- Lines 98-108 of `apiRequest`: the `options` object passed to `fetch`, or
the error `JSON.stringify(body)` throws. -/
def buildOptions (method : String) (body : JsValue) (headers : JsObject String) :
    Except JsError RequestInit :=
  let options : RequestInit :=
    { method := method
      headers := JsObject.spread [("Content-Type", "application/json")] headers
      body := none }
  if truthy body then
    match jsonStringify body with
    | .error e => .error e
    | .ok text => .ok { options with body := text }
  else .ok options

/-- Lines 112-118 of `apiRequest`: what happens once `fetch` has resolved. -/
def handleResponse (response : Response) : Except JsError JsValue :=
  if !response.ok then
    match response.json with
    | .error e => .error e
    | .ok errorData =>
      match getMessage errorData with
      | .error e => .error e
      | .ok message =>
        match toStr (if truthy message then message else .str response.statusText) with
        | .error e => .error e
        | .ok text =>
          .error (newError ("API request failed with status " ++ toString response.status
            ++ ": " ++ text))
  else
    match response.json with
    | .error e => .error e
    | .ok data => .ok data

/-- The `try` block of `apiRequest` (lines 98-118): the events it causes and
its outcome. -/
def apiRequestTry (host : Host) (url method : String) (body : JsValue)
    (headers : JsObject String) : List Event × Except JsError JsValue :=
  match buildOptions method body headers with
  | .error e => ([], .error e)
  | .ok options =>
    match host.fetch url options with
    | .error e => ([Event.fetch url options], .error e)
    | .ok response => ([Event.fetch url options], handleResponse response)

/-- The default parameter `body = null`: an omitted (`undefined`) argument
becomes `null`. -/
def defaultBody : JsValue → JsValue
  | .undefined => .null
  | b => b

/-- `apiRequest` (utils.js 96-123): the `try` block, and on failure the `catch`
block, which logs the caught error and throws it again. -/
def apiRequest (host : Host) (url method : String) (body : JsValue := .undefined)
    (headers : JsObject String := []) : List Event × Except JsError JsValue :=
  let body := defaultBody body
  match apiRequestTry host url method body headers with
  | (events, .ok data) => (events, .ok data)
  | (events, .error error) =>
    (events ++ [Event.consoleError "API request error:" error], .error error)

/-- `get` (utils.js 131). -/
def get (host : Host) (url : String) (headers : JsObject String := []) :
    List Event × Except JsError JsValue :=
  apiRequest host url "GET" .null headers

/-- `post` (utils.js 140). -/
def post (host : Host) (url : String) (body : JsValue) (headers : JsObject String := []) :
    List Event × Except JsError JsValue :=
  apiRequest host url "POST" body headers

/-- `put` (utils.js 149). -/
def put (host : Host) (url : String) (body : JsValue) (headers : JsObject String := []) :
    List Event × Except JsError JsValue :=
  apiRequest host url "PUT" body headers

/-- `del` (utils.js 157). -/
def del (host : Host) (url : String) (headers : JsObject String := []) :
    List Event × Except JsError JsValue :=
  apiRequest host url "DELETE" .null headers

/-- The requests handed to the transport, in order. -/
def fetchCalls : List Event → List (String × RequestInit)
  | [] => []
  | Event.fetch url options :: rest => (url, options) :: fetchCalls rest
  | _ :: rest => fetchCalls rest

/-- The diagnostic records written with `console.error`, in order. -/
def errorRecords : List Event → List (String × JsError)
  | [] => []
  | Event.consoleError label error :: rest => (label, error) :: errorRecords rest
  | _ :: rest => errorRecords rest

/-! ## Sample hosts and responses -/

/-- The host whose transport has the given outcome for every request. -/
def hostReturning (outcome : Except JsError Response) : Host :=
  { fetch := fun _ _ => outcome }

/-- A completed response with status 404 whose body is the JSON text
`\x7b"message":"not found"\x7d`. -/
def notFoundResponse : Response :=
  { ok := false
    status := 404
    statusText := "Not Found"
    json := .ok (.obj [("message", .str "not found")]) }

/-- A completed response with status 500 whose body (an HTML page) is not
JSON, so that `response.json()` rejects with a `SyntaxError`. -/
def brokenErrorResponse : Response :=
  { ok := false
    status := 500
    statusText := "Internal Server Error"
    json := .error ⟨"SyntaxError", "Unexpected token < in JSON at position 0"⟩ }

/-- A completed response with status 200 whose body decodes to `x`. -/
def okResponse (x : JsValue) : Response :=
  { ok := true
    status := 200
    statusText := "OK"
    json := .ok x }

/-- A completed response with status 200 whose body is not JSON. -/
def brokenOkResponse : Response :=
  { ok := true
    status := 200
    statusText := "OK"
    json := .error ⟨"SyntaxError", "Unexpected end of JSON input"⟩ }

end Utils

/-! ## Authentication wrappers (firebase-config.js) -/

namespace Firebase

open Utils

/-- The signed-in user as the identity provider reports it. -/
structure User where
  uid : String
  email : String

/-- The credential object the identity provider resolves with. -/
structure UserCredential where
  user : User

/-- `signInUser` (firebase-config.js 129-139); the first argument is the
identity provider's `signInWithEmailAndPassword(auth, ·, ·)`. -/
def signInUser (signInWithEmailAndPassword : String → String → Except JsError UserCredential)
    (email password : String) : List Event × Except JsError User :=
  match signInWithEmailAndPassword email password with
  | .ok userCredential =>
    let user := userCredential.user
    ([Event.consoleLog "User signed in successfully!"], .ok user)
  | .error error =>
    ([Event.consoleError "Error signing in: " error], .error error)

/-- `signOutUser` (firebase-config.js 142-151); the argument is the outcome of
the identity provider's `signOut(auth)`. -/
def signOutUser (signOut : Except JsError Unit) : List Event × Except JsError Bool :=
  match signOut with
  | .ok _ => ([Event.consoleLog "User signed out successfully!"], .ok true)
  | .error error => ([Event.consoleError "Error signing out: " error], .ok false)

end Firebase

/-! ## Properties of the helpers of utils.js -/

namespace Utils

/-! ### isEmpty -/

theorem dropWhile_eq_nil_of_all {α : Type} (p : α → Bool) (l : List α)
    (h : ∀ a ∈ l, p a = true) : l.dropWhile p = [] := by
  induction l with
  | nil => rfl
  | cons a t ih =>
    have ha : p a = true := h a (List.mem_cons_self a t)
    have ht : ∀ b ∈ t, p b = true := fun b hb => h b (List.mem_cons_of_mem a hb)
    simp [List.dropWhile, ha, ih ht]

theorem all_of_dropWhile_eq_nil {α : Type} (p : α → Bool) (l : List α)
    (h : l.dropWhile p = []) : ∀ a ∈ l, p a = true := by
  induction l with
  | nil => intro a ha; cases ha
  | cons b t ih =>
    by_cases hb : p b = true
    · simp only [List.dropWhile, hb] at h
      intro a ha
      rcases List.mem_cons.mp ha with rfl | hat
      · exact hb
      · exact ih h a hat
    · simp [List.dropWhile, hb] at h

theorem trim_eq_empty_iff (s : String) :
    trim s = "" ↔ ∀ c ∈ s.toList, isJsWhitespace c = true := by
  unfold trim
  constructor
  · intro h
    have h1 : ((s.toList.dropWhile isJsWhitespace).reverse.dropWhile isJsWhitespace).reverse
        = [] := by
      have := congrArg String.data h
      simpa using this
    have h2 : (s.toList.dropWhile isJsWhitespace).reverse.dropWhile isJsWhitespace = [] :=
      List.reverse_eq_nil_iff.mp h1
    have h3 : ∀ c ∈ (s.toList.dropWhile isJsWhitespace).reverse, isJsWhitespace c = true :=
      all_of_dropWhile_eq_nil _ _ h2
    by_cases hnil : s.toList.dropWhile isJsWhitespace = []
    · exact all_of_dropWhile_eq_nil _ _ hnil
    · exfalso
      have hhead := List.head_dropWhile_not isJsWhitespace s.toList hnil
      have hmem : (s.toList.dropWhile isJsWhitespace).head hnil ∈
          (s.toList.dropWhile isJsWhitespace).reverse :=
        List.mem_reverse.mpr (List.head_mem hnil)
      have htrue := h3 _ hmem
      exact Bool.noConfusion (htrue.symm.trans hhead)
  · intro h
    rw [dropWhile_eq_nil_of_all _ _ h]
    rfl

/-- C8 (the code at the failing input): on the string of three spaces, which is
not the empty string, `isEmpty` returns `true`, where the documented notion of
empty (`null`, `undefined`, empty string, empty array) gives `false`. -/
theorem isEmpty_whitespace_string :
    isEmpty (JsValue.str "   ") = true ∧ "   " ≠ "" ∧
      ¬ (JsValue.str "   " = JsValue.null ∨ JsValue.str "   " = JsValue.undefined ∨
          JsValue.str "   " = JsValue.str "" ∨ JsValue.str "   " = JsValue.arr []) := by
  refine ⟨by decide, by decide, ?_⟩
  rintro (h | h | h | h)
  · cases h
  · cases h
  · exact absurd (JsValue.str.inj h) (by decide)
  · cases h

theorem isEmpty_eq_true_iff (v : JsValue) :
    isEmpty v = true ↔
      v = JsValue.null ∨ v = JsValue.undefined ∨
        (∃ s, v = JsValue.str s ∧ ∀ c ∈ s.toList, isJsWhitespace c = true) ∨
        v = JsValue.arr [] := by
  cases v with
  | null => simp [isEmpty]
  | undefined => simp [isEmpty]
  | bool b => simp [isEmpty]
  | num n => simp [isEmpty]
  | bigint n => simp [isEmpty]
  | str s =>
    simp only [isEmpty, beq_iff_eq, trim_eq_empty_iff]
    constructor
    · intro h
      exact Or.inr (Or.inr (Or.inl ⟨s, rfl, h⟩))
    · rintro (h | h | ⟨t, ht, hall⟩ | h)
      · cases h
      · cases h
      · cases ht
        exact hall
      · cases h
  | arr items =>
    cases items with
    | nil => simp [isEmpty]
    | cons a t => simp [isEmpty]
  | obj fields => simp [isEmpty]

/-! ### isValidPassword -/

theorem char_le_iff_toNat (a b : Char) : a ≤ b ↔ a.toNat ≤ b.toNat :=
  Iff.rfl

theorem testUppercase_iff (s : String) :
    testUppercase s = true ↔ ∃ c ∈ s.toList, 'A' ≤ c ∧ c ≤ 'Z' := by
  simp only [testUppercase, List.any_eq_true, Bool.and_eq_true, decide_eq_true_eq,
    char_le_iff_toNat]

theorem testDigit_iff (s : String) :
    testDigit s = true ↔ ∃ c ∈ s.toList, '0' ≤ c ∧ c ≤ '9' := by
  simp only [testDigit, List.any_eq_true, Bool.and_eq_true, decide_eq_true_eq,
    char_le_iff_toNat]

theorem lengthLessThan_eq_false_iff (len : Nat) (x : JsNumber) :
    lengthLessThan len x = false ↔ (lengthAtLeast len x = true ∨ x = JsNumber.nan) := by
  cases x with
  | nan => simp [lengthLessThan]
  | posInf => simp [lengthLessThan, lengthAtLeast]
  | negInf => simp [lengthLessThan, lengthAtLeast]
  | finite q => simp [lengthLessThan, lengthAtLeast]

/-- C10 (counterexample): with `minLength` set to `NaN` the empty password is
accepted, although its length 0 is not at least `NaN`. -/
theorem isValidPassword_nan_counterexample :
    isValidPassword "" { minLength := some JsNumber.nan } = true ∧
      lengthAtLeast (jsLength "") JsNumber.nan = false :=
  ⟨rfl, rfl⟩

/-- C10 (amended): `isValidPassword password options` is `true` exactly when
the length of `password` (in UTF-16 code units, as `.length` counts) is at
least `minLength` or `minLength` is `NaN`, an upper-case letter `A-Z` occurs if
`requireUppercase` is set, and a digit `0-9` occurs if `requireNumber` is set,
with defaults 8, `false`, `false` for omitted options; with no options it is
`true` exactly for the strings of length at least 8. -/
theorem isValidPassword_iff (password : String) (options : PasswordOptions) :
    (isValidPassword password options = true ↔
      (lengthAtLeast (jsLength password) (options.minLength.getD (JsNumber.finite 8)) = true ∨
        options.minLength.getD (JsNumber.finite 8) = JsNumber.nan) ∧
      (options.requireUppercase.getD false = true →
        ∃ c ∈ password.toList, 'A' ≤ c ∧ c ≤ 'Z') ∧
      (options.requireNumber.getD false = true →
        ∃ c ∈ password.toList, '0' ≤ c ∧ c ≤ '9')) ∧
    (isValidPassword password = true ↔ 8 ≤ jsLength password) := by
  constructor
  · rw [← testUppercase_iff, ← testDigit_iff, ← lengthLessThan_eq_false_iff]
    cases hlen : lengthLessThan (jsLength password)
        (options.minLength.getD (JsNumber.finite 8)) <;>
      cases hu : options.requireUppercase.getD false <;>
      cases hn : options.requireNumber.getD false <;>
      cases htu : testUppercase password <;>
      cases htd : testDigit password <;>
      simp [isValidPassword, hlen, hu, hn, htu, htd]
  · unfold isValidPassword
    by_cases hlen : jsLength password < 8
    · have hq : ((jsLength password : ℚ) < 8) := by exact_mod_cast hlen
      simp [lengthLessThan, hlen, hq]
    · have hq : ¬ ((jsLength password : ℚ) < 8) := by
        intro h
        exact hlen (by exact_mod_cast h)
      simp [lengthLessThan, hq, not_lt.mp hlen]

/-! ### Objects -/

theorem JsObject.get_set {α : Type} (o : JsObject α) (k : String) (v : α) (k' : String) :
    JsObject.get (JsObject.set o k v) k' = if k = k' then some v else JsObject.get o k' := by
  induction o with
  | nil => simp [JsObject.set, JsObject.get]
  | cons p rest ih =>
    obtain ⟨k0, v0⟩ := p
    by_cases h0 : k0 = k
    · subst h0
      by_cases h1 : k0 = k' <;> simp [JsObject.set, JsObject.get, h1]
    · by_cases h1 : k0 = k'
      · subst h1
        have h2 : ¬ k = k0 := fun h => h0 h.symm
        simp [JsObject.set, JsObject.get, h0, h2]
      · simp [JsObject.set, JsObject.get, h0, h1, ih]

theorem JsObject.get_eq_none_of_not_mem {α : Type} (o : JsObject α) (k : String)
    (h : k ∉ JsObject.keys o) : JsObject.get o k = none := by
  induction o with
  | nil => rfl
  | cons p rest ih =>
    obtain ⟨k0, v0⟩ := p
    have hne : ¬ k0 = k := fun e => h (by simp [JsObject.keys, e])
    have hrest : k ∉ JsObject.keys rest := fun hm => h (by
      simp only [JsObject.keys, List.map_cons, List.mem_cons]
      exact Or.inr hm)
    simp [JsObject.get, hne, ih hrest]

theorem JsObject.get_spread {α : Type} (source target : JsObject α) (k : String)
    (hwf : (JsObject.keys source).Nodup) :
    JsObject.get (JsObject.spread target source) k =
      match JsObject.get source k with
      | some v => some v
      | none => JsObject.get target k := by
  induction source generalizing target with
  | nil => simp [JsObject.spread, JsObject.get]
  | cons p rest ih =>
    obtain ⟨k0, v0⟩ := p
    have hnd : k0 ∉ JsObject.keys rest ∧ (JsObject.keys rest).Nodup := by
      simpa [JsObject.keys] using hwf
    have hstep : JsObject.spread target ((k0, v0) :: rest) =
        JsObject.spread (JsObject.set target k0 v0) rest := rfl
    rw [hstep, ih (JsObject.set target k0 v0) hnd.2, JsObject.get_set]
    by_cases h0 : k0 = k
    · subst h0
      simp [JsObject.get, JsObject.get_eq_none_of_not_mem rest k0 hnd.1]
    · simp [JsObject.get, h0]

/-! ### JSON: numbers -/

theorem digitChar_spec :
    ∀ d, d < 10 → isDigit (Nat.digitChar d) = true ∧ (Nat.digitChar d).toNat - 48 = d ∧
      (Nat.digitChar d = '0' → d = 0) := by
  decide

theorem digitsToNat_append_singleton (pre : List Char) (c : Char) :
    digitsToNat (pre ++ [c]) = digitsToNat pre * 10 + (c.toNat - 48) := by
  simp [digitsToNat, List.foldl_append]

theorem toDigitsCore_spec (fuel : Nat) :
    ∀ (n : Nat) (ds : List Char), n < fuel →
      ∃ pre, Nat.toDigitsCore 10 fuel n ds = pre ++ ds ∧
        (∀ c ∈ pre, isDigit c = true) ∧ digitsToNat pre = n ∧
        (∃ d more, pre = d :: more ∧ (d = '0' → more = [])) := by
  induction fuel with
  | zero => intro n ds h; exact absurd h (Nat.not_lt_zero n)
  | succ fuel ih =>
    intro n ds hn
    have hmod : n % 10 < 10 := Nat.mod_lt n (by decide)
    obtain ⟨hdig, hval, hzero⟩ := digitChar_spec (n % 10) hmod
    by_cases hdiv : n / 10 = 0
    · have hlt : n < 10 := by omega
      have hmodn : n % 10 = n := Nat.mod_eq_of_lt hlt
      refine ⟨[Nat.digitChar (n % 10)], ?_, ?_, ?_, ?_⟩
      · simp [Nat.toDigitsCore, hdiv]
      · intro c hc
        rw [List.mem_singleton.mp hc]
        exact hdig
      · have hsingle : digitsToNat [Nat.digitChar (n % 10)] =
            (Nat.digitChar (n % 10)).toNat - 48 := by
          simp [digitsToNat]
        rw [hsingle, hval, hmodn]
      · exact ⟨_, [], rfl, fun _ => rfl⟩
    · have hlt : n / 10 < fuel := by omega
      obtain ⟨pre, hpre, hall, hnat, d, more, hcons, hlead⟩ :=
        ih (n / 10) (Nat.digitChar (n % 10) :: ds) hlt
      refine ⟨pre ++ [Nat.digitChar (n % 10)], ?_, ?_, ?_, ?_⟩
      · simp [Nat.toDigitsCore, hdiv, hpre]
      · intro c hc
        rcases List.mem_append.mp hc with h | h
        · exact hall c h
        · rw [List.mem_singleton.mp h]
          exact hdig
      · rw [digitsToNat_append_singleton, hnat, hval]
        omega
      · refine ⟨d, more ++ [Nat.digitChar (n % 10)], by simp [hcons], ?_⟩
        intro hd
        exfalso
        have hmore := hlead hd
        subst hmore
        subst hd
        rw [hcons] at hnat
        simp [digitsToNat] at hnat
        exact hdiv hnat.symm

theorem toDigits_spec (n : Nat) :
    (∀ c ∈ Nat.toDigits 10 n, isDigit c = true) ∧ digitsToNat (Nat.toDigits 10 n) = n ∧
      (∃ d more, Nat.toDigits 10 n = d :: more ∧ (d = '0' → more = [])) := by
  obtain ⟨pre, hpre, hall, hnat, hlead⟩ := toDigitsCore_spec (n + 1) n [] (Nat.lt_succ_self n)
  have hpre2 : Nat.toDigits 10 n = pre := by
    simp [Nat.toDigits, hpre]
  rw [hpre2]
  exact ⟨hall, hnat, hlead⟩

theorem terminated_head (rest : List Char) (h : terminated rest = true) :
    rest = [] ∨ ∃ c t, rest = c :: t ∧ (c = ',' ∨ c = ']' ∨ c = '\x7d') := by
  cases rest with
  | nil => exact Or.inl rfl
  | cons c t =>
    refine Or.inr ⟨c, t, rfl, ?_⟩
    have h2 : (c = ',' ∨ c = ']') ∨ c = '\x7d' := by simpa [terminated] using h
    rcases h2 with (h3 | h3) | h3
    · exact Or.inl h3
    · exact Or.inr (Or.inl h3)
    · exact Or.inr (Or.inr h3)

theorem spanDigits_terminated (rest : List Char) (h : terminated rest = true) :
    spanDigits rest = ([], rest) := by
  rcases terminated_head rest h with rfl | ⟨c, t, rfl, hc⟩
  · rfl
  · rcases hc with rfl | rfl | rfl <;> rfl

theorem startsFraction_terminated (rest : List Char) (h : terminated rest = true) :
    startsFraction rest = false := by
  rcases terminated_head rest h with rfl | ⟨c, t, rfl, hc⟩
  · rfl
  · rcases hc with rfl | rfl | rfl <;> rfl

theorem skipWs_terminated (rest : List Char) (h : terminated rest = true) :
    skipWs rest = rest := by
  rcases terminated_head rest h with rfl | ⟨c, t, rfl, hc⟩
  · rfl
  · rcases hc with rfl | rfl | rfl <;> rfl

theorem spanDigits_append (pre rest : List Char) (hall : ∀ c ∈ pre, isDigit c = true)
    (hrest : terminated rest = true) : spanDigits (pre ++ rest) = (pre, rest) := by
  induction pre with
  | nil => simpa using spanDigits_terminated rest hrest
  | cons c t ih =>
    have hc : isDigit c = true := hall c (List.mem_cons_self c t)
    have ht : ∀ d ∈ t, isDigit d = true := fun d hd => hall d (List.mem_cons_of_mem c hd)
    simp [spanDigits, hc, ih ht]

theorem isDigit_ne_minus (c : Char) (h : isDigit c = true) : c ≠ '-' := by
  intro hc
  subst hc
  exact absurd h (by decide)

theorem parseNumber_intChars (n : SafeInt) (rest : List Char)
    (hrest : terminated rest = true) :
    parseNumber (intChars n.val ++ rest) = some (n, rest) := by
  obtain ⟨v, hsafe⟩ := n
  obtain ⟨hall, hnat, d, more, hcons, hlead⟩ := toDigits_spec v.natAbs
  have hd : isDigit d = true := hall d (by rw [hcons]; exact List.mem_cons_self d more)
  have hspan := spanDigits_append (Nat.toDigits 10 v.natAbs) rest hall hrest
  have hfrac := startsFraction_terminated rest hrest
  have hzero : ¬ (d = '0' ∧ more ≠ []) := fun h => h.2 (hlead h.1)
  have hval : digitsToNat (d :: more) = v.natAbs := by rw [← hcons]; exact hnat
  by_cases hneg : v < 0
  · have hv : -((v.natAbs : Nat) : Int) = v := by omega
    have hinput : intChars v ++ rest = '-' :: (Nat.toDigits 10 v.natAbs ++ rest) := by
      simp [intChars, hneg]
    rw [hinput]
    simp only [parseNumber, decide_True, if_true, List.tail_cons, hspan, hfrac]
    rw [hcons]
    simp only [hzero, if_false, hval, hv]
    simp [hsafe]
  · have hv : ((v.natAbs : Nat) : Int) = v := by omega
    have hinput : intChars v ++ rest = d :: (more ++ rest) := by
      simp [intChars, hneg, hcons]
    have hdm : decide (d = '-') = false := by simpa using isDigit_ne_minus d hd
    have hspan2 : spanDigits (d :: (more ++ rest)) = (d :: more, rest) := by
      have := hspan
      rw [hcons] at this
      simpa using this
    rw [hinput]
    simp only [parseNumber, hdm, Bool.false_eq_true, if_false, hspan2, hfrac]
    simp only [hzero, if_false, hval, hv]
    simp [hsafe]

/-! ### JSON: strings -/

theorem hex4_control :
    ∀ n, n < 32 → hex4 '0' '0' (hexDigit (n / 16)) (hexDigit (n % 16)) = some n := by
  decide

theorem parseStringFuel_quoteBody (s : List Char) :
    ∀ (fuel : Nat) (rest : List Char), (quoteBody s).length < fuel →
      parseStringFuel fuel (quoteBody s ++ '"' :: rest) = some (s, rest) := by
  induction s with
  | nil =>
    intro fuel rest hfuel
    cases fuel with
    | zero => exact absurd hfuel (Nat.not_lt_zero _)
    | succ fuel => simp [quoteBody, parseStringFuel]
  | cons c t ih =>
    intro fuel rest hfuel
    cases fuel with
    | zero => exact absurd hfuel (Nat.not_lt_zero _)
    | succ fuel =>
      have hlen : (quoteBody (c :: t)).length = (quoteChar c).length + (quoteBody t).length := by
        simp [quoteBody]
      have hpos : 1 ≤ (quoteChar c).length := by
        unfold quoteChar
        repeat' split
        all_goals simp
      have hih := ih fuel rest (by omega)
      by_cases h1 : c = '"'
      · subst h1
        simp [quoteBody, quoteChar, parseStringFuel, parseEscape, unescapeChar, hih]
      by_cases h2 : c = '\\'
      · subst h2
        simp [quoteBody, quoteChar, parseStringFuel, parseEscape, unescapeChar, hih]
      by_cases h3 : c = Char.ofNat 8
      · subst h3
        simp [quoteBody, quoteChar, parseStringFuel, parseEscape, unescapeChar, hih]
      by_cases h4 : c = Char.ofNat 12
      · subst h4
        simp [quoteBody, quoteChar, parseStringFuel, parseEscape, unescapeChar, hih]
      by_cases h5 : c = '\n'
      · subst h5
        simp [quoteBody, quoteChar, parseStringFuel, parseEscape, unescapeChar, hih]
      by_cases h6 : c = '\r'
      · subst h6
        simp [quoteBody, quoteChar, parseStringFuel, parseEscape, unescapeChar, hih]
      by_cases h7 : c = '\t'
      · subst h7
        simp [quoteBody, quoteChar, parseStringFuel, parseEscape, unescapeChar, hih]
      by_cases h8 : c.toNat < 32
      · have hhex := hex4_control c.toNat h8
        have hsur : ¬ (0xD800 ≤ c.toNat ∧ c.toNat ≤ 0xDFFF) := by omega
        have hchar : Char.ofNat c.toNat = c := Char.ofNat_toNat c
        simp [quoteBody, quoteChar, parseStringFuel, parseEscape, h1, h2, h3, h4, h5, h6, h7,
          h8, hhex, hsur, hchar, hih]
      · simp [quoteBody, quoteChar, parseStringFuel, h1, h2, h3, h4, h5, h6, h7, h8, hih]

theorem parseStringBody_quoteBody (s rest : List Char) :
    parseStringBody (quoteBody s ++ '"' :: rest) = some (s, rest) := by
  unfold parseStringBody
  apply parseStringFuel_quoteBody
  simp

/-! ### JSON: values -/

theorem skipWs_cons_of_not_ws (c : Char) (t : List Char) (h : isJsonWs c = false) :
    skipWs (c :: t) = c :: t := by
  simp [skipWs, h]

theorem isDigit_not_ws (c : Char) (h : isDigit c = true) :
    isJsonWs c = false ∧ c ≠ ']' := by
  refine ⟨?_, ?_⟩
  · cases hws : isJsonWs c with
    | false => rfl
    | true =>
      exfalso
      have h2 : ((c = ' ' ∨ c = '\t') ∨ c = '\n') ∨ c = '\r' := by simpa [isJsonWs] using hws
      rcases h2 with ((h3 | h3) | h3) | h3 <;> subst h3 <;> exact absurd h (by decide)
  · intro hc
    subst hc
    exact absurd h (by decide)

theorem intChars_head (v : Int) :
    ∃ c t, intChars v = c :: t ∧ (c = '-' ∨ isDigit c = true) := by
  obtain ⟨hall, _, d, more, hcons, _⟩ := toDigits_spec v.natAbs
  have hd : isDigit d = true := hall d (by rw [hcons]; exact List.mem_cons_self d more)
  by_cases hneg : v < 0
  · exact ⟨'-', Nat.toDigits 10 v.natAbs, by simp [intChars, hneg], Or.inl rfl⟩
  · exact ⟨d, more, by simp [intChars, hneg, hcons], Or.inr hd⟩

theorem serializeValue_ne_none (v : JsValue) (hrep : jsonRepresentable v = true) :
    serializeValue v ≠ .ok none := by
  cases v with
  | undefined => simp [jsonRepresentable] at hrep
  | null => simp [serializeValue]
  | bool b => cases b <;> simp [serializeValue]
  | num n => simp [serializeValue]
  | bigint n => simp [serializeValue]
  | str s => simp [serializeValue]
  | arr items =>
    cases h : serializeItems items <;> simp [serializeValue, h]
  | obj fields =>
    cases h : serializeFields fields <;> simp [serializeValue, h]

theorem serializeValue_head (v : JsValue) (text : List Char)
    (hser : serializeValue v = .ok (some text)) :
    ∃ c t, text = c :: t ∧ isJsonWs c = false ∧ c ≠ ']' := by
  cases v with
  | undefined => simp [serializeValue] at hser
  | null =>
    simp only [serializeValue, Except.ok.injEq, Option.some.injEq] at hser
    subst hser
    exact ⟨_, _, rfl, by decide, by decide⟩
  | bool b =>
    cases b <;>
    · simp only [serializeValue, Except.ok.injEq, Option.some.injEq] at hser
      subst hser
      exact ⟨_, _, rfl, by decide, by decide⟩
  | num n =>
    simp only [serializeValue, Except.ok.injEq, Option.some.injEq] at hser
    subst hser
    obtain ⟨c, t, hct, hc⟩ := intChars_head n.val
    refine ⟨c, t, hct, ?_⟩
    rcases hc with rfl | hd
    · exact ⟨by decide, by decide⟩
    · exact isDigit_not_ws c hd
  | bigint n => simp [serializeValue] at hser
  | str s =>
    simp only [serializeValue, Except.ok.injEq, Option.some.injEq] at hser
    subst hser
    exact ⟨_, _, rfl, by decide, by decide⟩
  | arr items =>
    cases h : serializeItems items with
    | error e => simp [serializeValue, h] at hser
    | ok parts =>
      simp only [serializeValue, h, Except.ok.injEq, Option.some.injEq] at hser
      subst hser
      exact ⟨_, _, rfl, by decide, by decide⟩
  | obj fields =>
    cases h : serializeFields fields with
    | error e => simp [serializeValue, h] at hser
    | ok parts =>
      simp only [serializeValue, h, Except.ok.injEq, Option.some.injEq] at hser
      subst hser
      exact ⟨_, _, rfl, by decide, by decide⟩

theorem skipWs_serialized (v : JsValue) (text rest : List Char)
    (hser : serializeValue v = .ok (some text)) : skipWs (text ++ rest) = text ++ rest := by
  obtain ⟨c, t, rfl, hws, _⟩ := serializeValue_head v text hser
  exact skipWs_cons_of_not_ws c (t ++ rest) hws

theorem serializeItems_cons_inv (v : JsValue) (vs : List JsValue) (parts : List (List Char))
    (hser : serializeItems (v :: vs) = .ok parts) (hrep : jsonRepresentable v = true) :
    ∃ p ps, parts = p :: ps ∧ serializeValue v = .ok (some p) ∧ serializeItems vs = .ok ps := by
  have hne := serializeValue_ne_none v hrep
  cases hv : serializeValue v with
  | error e => simp [serializeItems, hv] at hser
  | ok part =>
    cases part with
    | none => exact absurd hv hne
    | some p =>
      cases hvs : serializeItems vs with
      | error e => simp [serializeItems, hv, hvs] at hser
      | ok ps =>
        simp only [serializeItems, hv, hvs, Option.getD_some, Except.ok.injEq] at hser
        exact ⟨p, ps, hser.symm, rfl, rfl⟩

theorem serializeFields_cons_inv (k : String) (v : JsValue) (fs : List (String × JsValue))
    (parts : List (List Char))
    (hser : serializeFields ((k, v) :: fs) = .ok parts) (hrep : jsonRepresentable v = true) :
    ∃ text ps, parts = (quoteChars k.toList ++ ':' :: text) :: ps ∧
      serializeValue v = .ok (some text) ∧ serializeFields fs = .ok ps := by
  have hne := serializeValue_ne_none v hrep
  cases hv : serializeValue v with
  | error e => simp [serializeFields, hv] at hser
  | ok part =>
    cases part with
    | none => exact absurd hv hne
    | some text =>
      cases hfs : serializeFields fs with
      | error e => simp [serializeFields, hv, hfs] at hser
      | ok ps =>
        simp only [serializeFields, hv, hfs, Except.ok.injEq] at hser
        exact ⟨text, ps, hser.symm, rfl, rfl⟩

theorem serializeItems_nil_iff (items : List JsValue) (parts : List (List Char))
    (hser : serializeItems items = .ok parts) : parts = [] ↔ items = [] := by
  cases items with
  | nil =>
    simp only [serializeItems, Except.ok.injEq] at hser
    simp [← hser]
  | cons v vs =>
    cases hv : serializeValue v with
    | error e => simp [serializeItems, hv] at hser
    | ok part =>
      cases hvs : serializeItems vs with
      | error e => simp [serializeItems, hv, hvs] at hser
      | ok ps =>
        simp only [serializeItems, hv, hvs, Except.ok.injEq] at hser
        simp [← hser]

theorem joinChars_cons_cons (p q : List Char) (ps : List (List Char)) :
    joinChars (p :: q :: ps) = p ++ ',' :: joinChars (q :: ps) := rfl

theorem spread_nil_of_nodup (fields : List (String × JsValue)) (acc : List (String × JsValue))
    (hnd : (fields.map Prod.fst).Nodup)
    (hdisj : ∀ k ∈ fields.map Prod.fst, k ∉ acc.map Prod.fst) :
    JsObject.spread acc fields = acc ++ fields := by
  induction fields generalizing acc with
  | nil => simp [JsObject.spread]
  | cons kv rest ih =>
    obtain ⟨k, v⟩ := kv
    have hk : k ∉ acc.map Prod.fst := hdisj k (by simp)
    have hset : ∀ (a : List (String × JsValue)), k ∉ a.map Prod.fst →
        JsObject.set a k v = a ++ [(k, v)] := by
      intro a
      induction a with
      | nil => intro _; rfl
      | cons kv0 a0 iha =>
        intro hka
        obtain ⟨k0, v0⟩ := kv0
        have hne : ¬ k0 = k := fun e => hka (by simp [e])
        have hka0 : k ∉ a0.map Prod.fst := fun hm => hka (by simp [hm])
        simp [JsObject.set, hne, iha hka0]
    have hnd2 : k ∉ rest.map Prod.fst ∧ (rest.map Prod.fst).Nodup := by
      simpa using hnd
    have hstep : JsObject.spread acc ((k, v) :: rest) =
        JsObject.spread (JsObject.set acc k v) rest := rfl
    rw [hstep, hset acc hk, ih (acc ++ [(k, v)]) hnd2.2]
    · simp
    · intro k1 hk1 hmem
      have hk1acc : k1 ∉ acc.map Prod.fst := hdisj k1 (by simp [hk1])
      simp only [List.map_append, List.map_cons, List.map_nil, List.mem_append,
        List.mem_singleton] at hmem
      rcases hmem with h | h
      · exact hk1acc h
      · subst h
        exact hnd2.1 hk1

theorem parse_serialized (fuel : Nat) :
    (∀ (v : JsValue) (text rest : List Char), serializeValue v = .ok (some text) →
      jsonRepresentable v = true → text.length ≤ fuel → terminated rest = true →
      parseValue fuel (text ++ rest) = some (v, rest)) ∧
    (∀ (items : List JsValue) (parts : List (List Char)) (rest : List Char),
      serializeItems items = .ok parts → itemsRepresentable items = true → items ≠ [] →
      (joinChars parts).length < fuel →
      parseElements fuel (joinChars parts ++ ']' :: rest) = some (items, rest)) ∧
    (∀ (fields : List (String × JsValue)) (parts : List (List Char)) (rest : List Char),
      serializeFields fields = .ok parts → fieldsRepresentable fields = true → fields ≠ [] →
      (joinChars parts).length < fuel →
      parseMembers fuel (joinChars parts ++ '\x7d' :: rest) = some (fields, rest)) := by
  induction fuel with
  | zero =>
    refine ⟨?_, ?_, ?_⟩
    · intro v text rest hser _ hlen _
      obtain ⟨c, t, rfl, _⟩ := serializeValue_head v text hser
      simp at hlen
    · intro items parts rest _ _ _ hlen
      exact absurd hlen (Nat.not_lt_zero _)
    · intro fields parts rest _ _ _ hlen
      exact absurd hlen (Nat.not_lt_zero _)
  | succ fuel ih =>
    obtain ⟨ihV, ihE, ihM⟩ := ih
    refine ⟨?_, ?_, ?_⟩
    · intro v text rest hser hrep hlen hrest
      cases v with
      | undefined => simp [serializeValue] at hser
      | bigint n => simp [serializeValue] at hser
      | null =>
        simp only [serializeValue, Except.ok.injEq, Option.some.injEq] at hser
        subst hser
        simp [parseValue, isDigit, expectWord]
      | bool b =>
        cases b <;>
        · simp only [serializeValue, Except.ok.injEq, Option.some.injEq] at hser
          subst hser
          simp [parseValue, isDigit, expectWord]
      | num n =>
        simp only [serializeValue, Except.ok.injEq, Option.some.injEq] at hser
        subst hser
        obtain ⟨c, t, hct, hc⟩ := intChars_head n.val
        have hnum := parseNumber_intChars n rest hrest
        rw [hct] at hnum ⊢
        simp only [List.cons_append] at hnum ⊢
        simp only [parseValue, hc, if_true, hnum]
      | str s =>
        simp only [serializeValue, Except.ok.injEq, Option.some.injEq] at hser
        subst hser
        have hbody := parseStringBody_quoteBody s.data rest
        simp [parseValue, isDigit, quoteChars, hbody]
      | arr items =>
        cases hparts : serializeItems items with
        | error e => simp [serializeValue, hparts] at hser
        | ok parts =>
          simp only [serializeValue, hparts, Except.ok.injEq, Option.some.injEq] at hser
          subst hser
          have hrepItems : itemsRepresentable items = true := by
            simpa [jsonRepresentable] using hrep
          cases items with
          | nil =>
            simp only [serializeItems, Except.ok.injEq] at hparts
            subst hparts
            simp [parseValue, isDigit, joinChars, skipWs, isJsonWs]
          | cons v vs =>
            have hrepV : jsonRepresentable v = true := by
              simp only [itemsRepresentable, Bool.and_eq_true] at hrepItems
              exact hrepItems.1
            obtain ⟨p, ps, hpp, hp, _⟩ := serializeItems_cons_inv v vs parts hparts hrepV
            obtain ⟨c, t, hct, hws, hnb⟩ := serializeValue_head v p hp
            have hjoin : ∃ t2, joinChars parts = c :: t2 := by
              subst hpp
              subst hct
              cases ps with
              | nil => exact ⟨t, rfl⟩
              | cons q qs => exact ⟨t ++ ',' :: joinChars (q :: qs), rfl⟩
            obtain ⟨t2, ht2⟩ := hjoin
            have hlen2 : (joinChars parts).length < fuel := by
              simp only [List.length_cons, List.length_append, List.length_nil] at hlen
              omega
            have hE := ihE (v :: vs) parts rest hparts hrepItems (List.cons_ne_nil v vs) hlen2
            rw [ht2] at hE
            simp only [List.cons_append] at hE
            simp [parseValue, isDigit, ht2, skipWs, hws, hnb, hE]
      | obj fields =>
        cases hparts : serializeFields fields with
        | error e => simp [serializeValue, hparts] at hser
        | ok parts =>
          simp only [serializeValue, hparts, Except.ok.injEq, Option.some.injEq] at hser
          subst hser
          have hrep2 : fieldsRepresentable fields = true ∧ (fields.map Prod.fst).Nodup := by
            simpa [jsonRepresentable] using hrep
          cases fields with
          | nil =>
            simp only [serializeFields, Except.ok.injEq] at hparts
            subst hparts
            simp [parseValue, isDigit, joinChars, skipWs, isJsonWs]
          | cons kv fs =>
            obtain ⟨k, v⟩ := kv
            have hrepV : jsonRepresentable v = true := by
              have := hrep2.1
              simp only [fieldsRepresentable, Bool.and_eq_true] at this
              exact this.1
            obtain ⟨text, ps, hpp, _, _⟩ := serializeFields_cons_inv k v fs parts hparts hrepV
            have hjoin : ∃ t2, joinChars parts = '"' :: t2 := by
              subst hpp
              cases ps with
              | nil => exact ⟨_, rfl⟩
              | cons q qs => exact ⟨_, rfl⟩
            obtain ⟨t2, ht2⟩ := hjoin
            have hlen2 : (joinChars parts).length < fuel := by
              simp only [List.length_cons, List.length_append, List.length_nil] at hlen
              omega
            have hM := ihM ((k, v) :: fs) parts rest hparts hrep2.1
              (List.cons_ne_nil _ _) hlen2
            rw [ht2] at hM
            simp only [List.cons_append] at hM
            have hspread : JsObject.spread [] ((k, v) :: fs) = (k, v) :: fs := by
              have := spread_nil_of_nodup ((k, v) :: fs) [] hrep2.2 (by simp)
              simpa using this
            simp [parseValue, isDigit, ht2, skipWs, isJsonWs, hM, hspread]
    · intro items parts rest hser hrep hne hlen
      cases items with
      | nil => exact absurd rfl hne
      | cons v vs =>
        have hrep2 : jsonRepresentable v = true ∧ itemsRepresentable vs = true := by
          simpa [itemsRepresentable] using hrep
        obtain ⟨p, ps, hpp, hp, hps⟩ := serializeItems_cons_inv v vs parts hser hrep2.1
        subst hpp
        obtain ⟨c, t, hct, _, _⟩ := serializeValue_head v p hp
        have hppos : 1 ≤ p.length := by rw [hct]; simp
        cases vs with
        | nil =>
          simp only [serializeItems, Except.ok.injEq] at hps
          subst hps
          have hlenp : p.length ≤ fuel := by
            simp only [joinChars] at hlen
            omega
          have hV := ihV v p (']' :: rest) hp hrep2.1 hlenp rfl
          simp [parseElements, joinChars, hV, skipWs, isJsonWs]
        | cons w ws =>
          have hrepW : jsonRepresentable w = true := by
            have := hrep2.2
            simp only [itemsRepresentable, Bool.and_eq_true] at this
            exact this.1
          obtain ⟨q, qs, hqq, hq, _⟩ := serializeItems_cons_inv w ws ps hps hrepW
          subst hqq
          have hlen2 : p.length + 1 + (joinChars (q :: qs)).length < fuel + 1 := by
            rw [joinChars_cons_cons] at hlen
            simp only [List.length_append, List.length_cons] at hlen
            omega
          have hV := ihV v p (',' :: (joinChars (q :: qs) ++ ']' :: rest)) hp hrep2.1
            (by omega) rfl
          have hE := ihE (w :: ws) (q :: qs) rest hps hrep2.2 (List.cons_ne_nil w ws)
            (by omega)
          obtain ⟨c2, t2, hct2, hws2, _⟩ := serializeValue_head w q hq
          have hjoin : ∃ t3, joinChars (q :: qs) = c2 :: t3 := by
            subst hct2
            cases qs with
            | nil => exact ⟨t2, rfl⟩
            | cons r rs => exact ⟨t2 ++ ',' :: joinChars (r :: rs), rfl⟩
          obtain ⟨t3, ht3⟩ := hjoin
          have hskip : skipWs (joinChars (q :: qs) ++ ']' :: rest) =
              joinChars (q :: qs) ++ ']' :: rest := by
            rw [ht3]
            exact skipWs_cons_of_not_ws c2 _ hws2
          rw [joinChars_cons_cons]
          simp only [List.append_assoc, List.cons_append]
          simp only [parseElements, hV]
          simp [skipWs, isJsonWs, hskip, hE]
    · intro fields parts rest hser hrep hne hlen
      cases fields with
      | nil => exact absurd rfl hne
      | cons kv fs =>
        obtain ⟨k, v⟩ := kv
        have hrep2 : jsonRepresentable v = true ∧ fieldsRepresentable fs = true := by
          simpa [fieldsRepresentable] using hrep
        obtain ⟨text, ps, hpp, hp, hps⟩ := serializeFields_cons_inv k v fs parts hser hrep2.1
        subst hpp
        have hkey : ∀ after : List Char,
            parseStringBody (quoteBody k.toList ++ '"' :: after) = some (k.toList, after) :=
          fun after => parseStringBody_quoteBody k.toList after
        have hskipV : ∀ after : List Char, skipWs (text ++ after) = text ++ after :=
          fun after => skipWs_serialized v text after hp
        cases fs with
        | nil =>
          simp only [serializeFields, Except.ok.injEq] at hps
          subst hps
          have hlenp : text.length ≤ fuel := by
            simp only [joinChars, quoteChars, List.length_append, List.length_cons] at hlen
            omega
          have hV := ihV v text ('\x7d' :: rest) hp hrep2.1 hlenp rfl
          simp only [joinChars, quoteChars, List.append_assoc, List.cons_append,
            List.nil_append]
          simp only [parseMembers, if_true, hkey]
          simp [skipWs, isJsonWs, hskipV, hV]
        | cons kw ws =>
          obtain ⟨k2, w⟩ := kw
          have hrepW : jsonRepresentable w = true := by
            have := hrep2.2
            simp only [fieldsRepresentable, Bool.and_eq_true] at this
            exact this.1
          obtain ⟨text2, qs, hqq, _, _⟩ := serializeFields_cons_inv k2 w ws ps hps hrepW
          subst hqq
          have hlen2 : text.length + 1 +
              (joinChars ((quoteChars k2.toList ++ ':' :: text2) :: qs)).length < fuel := by
            rw [joinChars_cons_cons] at hlen
            simp only [quoteChars, List.length_append, List.length_cons] at hlen
            simp only [quoteChars]
            omega
          have hV := ihV v text
            (',' :: (joinChars ((quoteChars k2.toList ++ ':' :: text2) :: qs) ++ '\x7d' :: rest))
            hp hrep2.1 (by omega) rfl
          have hM := ihM ((k2, w) :: ws) ((quoteChars k2.toList ++ ':' :: text2) :: qs) rest hps
            hrep2.2 (List.cons_ne_nil _ _) (by omega)
          have hjoin : ∃ t3, joinChars ((quoteChars k2.toList ++ ':' :: text2) :: qs) =
              '"' :: t3 := by
            cases qs with
            | nil => exact ⟨_, rfl⟩
            | cons r rs => exact ⟨_, rfl⟩
          obtain ⟨t3, ht3⟩ := hjoin
          have hskip : skipWs (joinChars ((quoteChars k2.toList ++ ':' :: text2) :: qs) ++
              '\x7d' :: rest) =
              joinChars ((quoteChars k2.toList ++ ':' :: text2) :: qs) ++ '\x7d' :: rest := by
            rw [ht3]
            exact skipWs_cons_of_not_ws '"' _ (by decide)
          rw [joinChars_cons_cons]
          simp only [quoteChars, List.append_assoc, List.cons_append, List.nil_append]
          simp only [parseMembers, if_true, hkey]
          simp only [quoteChars, List.append_assoc, List.cons_append, List.nil_append,
            String.toList] at hV hM hskip
          simp [skipWs, isJsonWs, hskipV, hV, hskip, hM]

mutual
theorem serializeValue_ok : ∀ (v : JsValue), jsonRepresentable v = true →
    ∃ text, serializeValue v = .ok (some text)
  | .null, _ => ⟨_, rfl⟩
  | .undefined, h => by simp [jsonRepresentable] at h
  | .bool true, _ => ⟨_, rfl⟩
  | .bool false, _ => ⟨_, rfl⟩
  | .num _, _ => ⟨_, rfl⟩
  | .bigint _, h => by simp [jsonRepresentable] at h
  | .str _, _ => ⟨_, rfl⟩
  | .arr items, h => by
    have hitems : itemsRepresentable items = true := by simpa [jsonRepresentable] using h
    obtain ⟨parts, hparts⟩ := serializeItems_ok items hitems
    exact ⟨'[' :: (joinChars parts ++ [']']), by simp [serializeValue, hparts]⟩
  | .obj fields, h => by
    have hfields : fieldsRepresentable fields = true := by
      have h2 : fieldsRepresentable fields = true ∧ (fields.map Prod.fst).Nodup := by
        simpa [jsonRepresentable] using h
      exact h2.1
    obtain ⟨parts, hparts⟩ := serializeFields_ok fields hfields
    exact ⟨'\x7b' :: (joinChars parts ++ ['\x7d']), by simp [serializeValue, hparts]⟩
theorem serializeItems_ok : ∀ (items : List JsValue), itemsRepresentable items = true →
    ∃ parts, serializeItems items = .ok parts
  | [], _ => ⟨_, rfl⟩
  | v :: rest, h => by
    have h2 : jsonRepresentable v = true ∧ itemsRepresentable rest = true := by
      simpa [itemsRepresentable] using h
    obtain ⟨text, htext⟩ := serializeValue_ok v h2.1
    obtain ⟨parts, hparts⟩ := serializeItems_ok rest h2.2
    exact ⟨text :: parts, by simp [serializeItems, htext, hparts]⟩
theorem serializeFields_ok : ∀ (fields : List (String × JsValue)),
    fieldsRepresentable fields = true → ∃ parts, serializeFields fields = .ok parts
  | [], _ => ⟨_, rfl⟩
  | (k, v) :: rest, h => by
    have h2 : jsonRepresentable v = true ∧ fieldsRepresentable rest = true := by
      simpa [fieldsRepresentable] using h
    obtain ⟨text, htext⟩ := serializeValue_ok v h2.1
    obtain ⟨parts, hparts⟩ := serializeFields_ok rest h2.2
    exact ⟨(quoteChars k.toList ++ ':' :: text) :: parts,
      by simp [serializeFields, htext, hparts]⟩
end

theorem jsonParse_jsonStringify (b : JsValue) (hrep : jsonRepresentable b = true) :
    ∃ text, jsonStringify b = .ok (some text) ∧ jsonParse text = some b := by
  obtain ⟨chars, hchars⟩ := serializeValue_ok b hrep
  refine ⟨String.mk chars, by simp [jsonStringify, hchars], ?_⟩
  have hparse := (parse_serialized (chars.length + 1)).1 b chars [] hchars hrep
    (Nat.le_succ _) rfl
  have hskip := skipWs_serialized b chars [] hchars
  simp only [List.append_nil] at hparse hskip
  simp [jsonParse, hskip, hparse, skipWs]

/-! ### apiRequest -/

theorem truthy_defaultBody (b : JsValue) : truthy (defaultBody b) = truthy b := by
  cases b <;> rfl

theorem defaultBody_of_truthy (b : JsValue) (h : truthy b = true) : defaultBody b = b := by
  cases b <;> first | rfl | (simp [truthy] at h)

theorem buildOptions_of_falsy (method : String) (body : JsValue) (headers : JsObject String)
    (h : truthy body = false) :
    buildOptions method body headers =
      .ok { method := method,
            headers := JsObject.spread [("Content-Type", "application/json")] headers,
            body := none } := by
  simp [buildOptions, h]

theorem buildOptions_of_truthy (method : String) (body : JsValue) (headers : JsObject String)
    (h : truthy body = true) :
    buildOptions method body headers =
      match jsonStringify body with
      | .error e => .error e
      | .ok text =>
        .ok { method := method,
              headers := JsObject.spread [("Content-Type", "application/json")] headers,
              body := text } := by
  simp [buildOptions, h]

theorem buildOptions_fields (method : String) (body : JsValue) (headers : JsObject String)
    (options : RequestInit) (h : buildOptions method body headers = .ok options) :
    options.method = method ∧
      options.headers = JsObject.spread [("Content-Type", "application/json")] headers := by
  cases ht : truthy body with
  | false =>
    rw [buildOptions_of_falsy method body headers ht] at h
    cases h
    exact ⟨rfl, rfl⟩
  | true =>
    rw [buildOptions_of_truthy method body headers ht] at h
    cases hs : jsonStringify body with
    | error e => simp [hs] at h
    | ok text =>
      simp only [hs, Except.ok.injEq] at h
      subst h
      exact ⟨rfl, rfl⟩

theorem apiRequest_of_build_error (host : Host) (url method : String) (body : JsValue)
    (headers : JsObject String) (e : JsError)
    (hb : buildOptions method (defaultBody body) headers = .error e) :
    apiRequest host url method body headers =
      ([Event.consoleError "API request error:" e], .error e) := by
  simp [apiRequest, apiRequestTry, hb]

theorem apiRequest_of_fetch_error (host : Host) (url method : String) (body : JsValue)
    (headers : JsObject String) (options : RequestInit) (e : JsError)
    (hb : buildOptions method (defaultBody body) headers = .ok options)
    (hf : host.fetch url options = .error e) :
    apiRequest host url method body headers =
      ([Event.fetch url options, Event.consoleError "API request error:" e], .error e) := by
  simp [apiRequest, apiRequestTry, hb, hf]

theorem apiRequest_of_response_error (host : Host) (url method : String) (body : JsValue)
    (headers : JsObject String) (options : RequestInit) (response : Response) (e : JsError)
    (hb : buildOptions method (defaultBody body) headers = .ok options)
    (hf : host.fetch url options = .ok response)
    (hr : handleResponse response = .error e) :
    apiRequest host url method body headers =
      ([Event.fetch url options, Event.consoleError "API request error:" e], .error e) := by
  simp [apiRequest, apiRequestTry, hb, hf, hr]

theorem apiRequest_of_response_ok (host : Host) (url method : String) (body : JsValue)
    (headers : JsObject String) (options : RequestInit) (response : Response) (x : JsValue)
    (hb : buildOptions method (defaultBody body) headers = .ok options)
    (hf : host.fetch url options = .ok response)
    (hr : handleResponse response = .ok x) :
    apiRequest host url method body headers = ([Event.fetch url options], .ok x) := by
  simp [apiRequest, apiRequestTry, hb, hf, hr]

theorem handleResponse_of_ok (response : Response) (hok : response.ok = true) :
    handleResponse response = response.json := by
  cases hj : response.json <;> simp [handleResponse, hok, hj]

theorem handleResponse_of_not_ok (response : Response) (hok : response.ok = false) :
    ∃ e, handleResponse response = .error e := by
  cases hj : response.json with
  | error e => exact ⟨e, by simp [handleResponse, hok, hj]⟩
  | ok errorData =>
    cases hm : getMessage errorData with
    | error e => exact ⟨e, by simp [handleResponse, hok, hj, hm]⟩
    | ok message =>
      cases ht : toStr (if truthy message = true then message else JsValue.str response.statusText) with
      | error e => exact ⟨e, by simp [handleResponse, hok, hj, hm, ht]⟩
      | ok text =>
        exact ⟨newError ("API request failed with status " ++ toString response.status
          ++ ": " ++ text), by simp [handleResponse, hok, hj, hm, ht]⟩

theorem handleResponse_of_json_error (response : Response) (e : JsError)
    (hj : response.json = .error e) : handleResponse response = .error e := by
  cases hok : response.ok <;> simp [handleResponse, hok, hj]

theorem fetchCalls_apiRequest (host : Host) (url method : String) (body : JsValue)
    (headers : JsObject String) (options : RequestInit)
    (hb : buildOptions method (defaultBody body) headers = .ok options) :
    fetchCalls (apiRequest host url method body headers).1 = [(url, options)] := by
  cases hf : host.fetch url options with
  | error e =>
    rw [apiRequest_of_fetch_error host url method body headers options e hb hf]
    rfl
  | ok response =>
    cases hr : handleResponse response with
    | error e =>
      rw [apiRequest_of_response_error host url method body headers options response e hb hf hr]
      rfl
    | ok x =>
      rw [apiRequest_of_response_ok host url method body headers options response x hb hf hr]
      rfl

theorem truthy_eq_false_iff (b : JsValue) :
    truthy b = false ↔
      b = JsValue.null ∨ b = JsValue.undefined ∨ b = JsValue.bool false ∨
        (∃ n, b = JsValue.num n ∧ n.val = 0) ∨ b = JsValue.bigint 0 ∨ b = JsValue.str "" := by
  cases b with
  | bool v => cases v <;> simp [truthy]
  | _ => simp [truthy]

/-- C1 (counterexample): for status 404 and body `\x7b"message":"not found"\x7d`
the error raised has the message `API request failed with status 404: not found`,
which is not the message `not found` of the body. -/
theorem apiRequest_error_message_counterexample :
    (apiRequest (hostReturning (.ok notFoundResponse)) "/items/7" "GET").2 =
        .error { name := "Error", message := "API request failed with status 404: not found" } ∧
      "API request failed with status 404: not found" ≠ "not found" :=
  ⟨rfl, by decide⟩

/-- C1 (amended): when the transport completes with a non-success response of
status `s` whose body decodes to an object with a non-empty string `message`
field `m`, `apiRequest` fails with an `Error` whose message is the text
`API request failed with status s: m`. -/
theorem apiRequest_error_message (host : Host) (url method : String) (body : JsValue)
    (headers : JsObject String) (options : RequestInit) (response : Response)
    (fields : List (String × JsValue)) (m : String)
    (hoptions : buildOptions method (defaultBody body) headers = .ok options)
    (hfetch : host.fetch url options = .ok response)
    (hok : response.ok = false)
    (hjson : response.json = .ok (.obj fields))
    (hmsg : JsObject.get fields "message" = some (.str m))
    (hne : m ≠ "") :
    (apiRequest host url method body headers).2 =
      .error { name := "Error",
               message := "API request failed with status " ++ toString response.status
                 ++ ": " ++ m } := by
  have hr : handleResponse response =
      .error { name := "Error",
               message := "API request failed with status " ++ toString response.status
                 ++ ": " ++ m } := by
    simp [handleResponse, hok, hjson, getMessage, hmsg, truthy, hne, toStr, newError]
  rw [apiRequest_of_response_error host url method body headers options response _
    hoptions hfetch hr]

/-- C1 (witness): status 404 with body `\x7b"message":"not found"\x7d`. -/
theorem apiRequest_error_message_witness :
    (apiRequest (hostReturning (.ok notFoundResponse)) "/items/7" "GET" .undefined []).2 =
      .error { name := "Error",
               message := "API request failed with status " ++ toString (404 : Nat)
                 ++ ": " ++ "not found" } :=
  apiRequest_error_message (hostReturning (.ok notFoundResponse)) "/items/7" "GET" .undefined []
    { method := "GET", headers := [("Content-Type", "application/json")], body := none }
    notFoundResponse [("message", .str "not found")] "not found" rfl rfl rfl rfl rfl
    (by decide)

/-- C2 (the code at the failing input): for a response of status 500 whose body
is not JSON, the error raised is the `SyntaxError` of `response.json()`, not an
error that carries the status 500 and the status text. -/
theorem apiRequest_undecodable_error_body :
    apiRequest (hostReturning (.ok brokenErrorResponse)) "/items" "GET" =
      ([Event.fetch "/items"
          { method := "GET", headers := [("Content-Type", "application/json")], body := none },
        Event.consoleError "API request error:"
          { name := "SyntaxError", message := "Unexpected token < in JSON at position 0" }],
       .error { name := "SyntaxError", message := "Unexpected token < in JSON at position 0" }) :=
  rfl

/-- C3 (counterexample): with the supplied bodies `0` (through `post`), `false`
(through `put`) and the empty string (through `apiRequest` with `POST`), the
outbound request has no body field. -/
theorem post_put_falsy_body_counterexample :
    (fetchCalls (post (hostReturning (.ok (okResponse .null))) "/items"
        (.num ⟨0, by decide⟩)).1).map (fun call => call.2.body) = [none] ∧
    (fetchCalls (put (hostReturning (.ok (okResponse .null))) "/items" (.bool false)).1).map
        (fun call => call.2.body) = [none] ∧
    (fetchCalls (apiRequest (hostReturning (.ok (okResponse .null))) "/items" "POST"
        (.str "")).1).map (fun call => call.2.body) = [none] :=
  ⟨rfl, rfl, rfl⟩

/-- C3 (amended): for every method (so for `POST` and `PUT`, and through `post`
and `put`) and every truthy JSON-representable body `b`, the single outbound
request has a body field, and decoding that field with `JSON.parse` yields `b`;
for a falsy body the outbound request has no body field. -/
theorem apiRequest_body_roundtrip (host : Host) (url method : String) (b : JsValue)
    (headers : JsObject String)
    (htruthy : truthy b = true) (hrep : jsonRepresentable b = true) :
    (∃ options text, fetchCalls (apiRequest host url method b headers).1 = [(url, options)] ∧
      options.body = some text ∧ jsonParse text = some b) ∧
    (∃ options text, fetchCalls (post host url b headers).1 = [(url, options)] ∧
      options.method = "POST" ∧ options.body = some text ∧ jsonParse text = some b) ∧
    (∃ options text, fetchCalls (put host url b headers).1 = [(url, options)] ∧
      options.method = "PUT" ∧ options.body = some text ∧ jsonParse text = some b) ∧
    (∀ b0 : JsValue, truthy b0 = false →
      ∃ options, fetchCalls (apiRequest host url method b0 headers).1 = [(url, options)] ∧
        options.body = none) := by
  obtain ⟨text, htext, hparse⟩ := jsonParse_jsonStringify b hrep
  have hdef : defaultBody b = b := defaultBody_of_truthy b htruthy
  have hbuild : ∀ meth : String, buildOptions meth (defaultBody b) headers =
      .ok { method := meth,
            headers := JsObject.spread [("Content-Type", "application/json")] headers,
            body := some text } := by
    intro meth
    rw [hdef, buildOptions_of_truthy meth b headers htruthy, htext]
  refine ⟨⟨_, text, fetchCalls_apiRequest host url method b headers _ (hbuild method),
      rfl, hparse⟩,
    ⟨_, text, fetchCalls_apiRequest host url "POST" b headers _ (hbuild "POST"),
      rfl, rfl, hparse⟩,
    ⟨_, text, fetchCalls_apiRequest host url "PUT" b headers _ (hbuild "PUT"),
      rfl, rfl, hparse⟩, ?_⟩
  intro b0 hb0
  have hfalsy : truthy (defaultBody b0) = false := by rw [truthy_defaultBody]; exact hb0
  exact ⟨_, fetchCalls_apiRequest host url method b0 headers _
    (buildOptions_of_falsy method (defaultBody b0) headers hfalsy), rfl⟩

/-- C3 (witness): the body `\x7b"name":"pen","tags":["a",7]\x7d` sent with
`POST`. -/
theorem apiRequest_body_roundtrip_witness :
    ∃ options text,
      fetchCalls (post (hostReturning (.ok (okResponse .null))) "/items"
        (.obj [("name", .str "pen"), ("tags", .arr [.str "a", .num ⟨7, by decide⟩])]) []).1 =
          [("/items", options)] ∧
      options.method = "POST" ∧ options.body = some text ∧
      jsonParse text =
        some (.obj [("name", .str "pen"), ("tags", .arr [.str "a", .num ⟨7, by decide⟩])]) :=
  (apiRequest_body_roundtrip (hostReturning (.ok (okResponse .null))) "/items" "POST"
    (.obj [("name", .str "pen"), ("tags", .arr [.str "a", .num ⟨7, by decide⟩])]) []
    rfl (by decide)).2.1

theorem spread_default_headers (h : JsObject String) (hwf : (JsObject.keys h).Nodup) :
    (∀ k v, JsObject.get h k = some v →
      JsObject.get (JsObject.spread [("Content-Type", "application/json")] h) k = some v) ∧
    (JsObject.get h "Content-Type" = none →
      JsObject.get (JsObject.spread [("Content-Type", "application/json")] h) "Content-Type"
        = some "application/json") ∧
    (∀ k, JsObject.get h k = none → k ≠ "Content-Type" →
      JsObject.get (JsObject.spread [("Content-Type", "application/json")] h) k = none) := by
  refine ⟨?_, ?_, ?_⟩
  · intro k v hk
    rw [JsObject.get_spread h _ k hwf, hk]
  · intro hk
    rw [JsObject.get_spread h _ _ hwf, hk]
    rfl
  · intro k hk hne
    rw [JsObject.get_spread h _ k hwf, hk]
    have hne2 : ¬ "Content-Type" = k := fun e => hne e.symm
    simp [JsObject.get, hne2]

/-- C4: the headers of every outbound request of `apiRequest` are the default
`Content-Type: application/json` merged with the caller's headers `h`, the
caller's entries winning: every key of `h` maps to its value in `h`,
`Content-Type` maps to `application/json` when `h` has no such key, and no
other key is present; and whenever the body is falsy or serialises there is
exactly one outbound request, with these headers. -/
theorem apiRequest_headers_merge (host : Host) (url method : String) (body : JsValue)
    (h : JsObject String) (hwf : (JsObject.keys h).Nodup) :
    (∀ call ∈ fetchCalls (apiRequest host url method body h).1,
      (∀ k v, JsObject.get h k = some v → JsObject.get call.2.headers k = some v) ∧
      (JsObject.get h "Content-Type" = none →
        JsObject.get call.2.headers "Content-Type" = some "application/json") ∧
      (∀ k, JsObject.get h k = none → k ≠ "Content-Type" →
        JsObject.get call.2.headers k = none)) ∧
    ((truthy (defaultBody body) = false ∨
        ∃ text, jsonStringify (defaultBody body) = .ok text) →
      ∃ options, fetchCalls (apiRequest host url method body h).1 = [(url, options)] ∧
        (∀ k v, JsObject.get h k = some v → JsObject.get options.headers k = some v) ∧
        (JsObject.get h "Content-Type" = none →
          JsObject.get options.headers "Content-Type" = some "application/json") ∧
        (∀ k, JsObject.get h k = none → k ≠ "Content-Type" →
          JsObject.get options.headers k = none)) := by
  have hmerge := spread_default_headers h hwf
  constructor
  · intro call hcall
    cases hb : buildOptions method (defaultBody body) h with
    | error e =>
      rw [apiRequest_of_build_error host url method body h e hb] at hcall
      simp [fetchCalls] at hcall
    | ok options =>
      rw [fetchCalls_apiRequest host url method body h options hb] at hcall
      rw [List.mem_singleton.mp hcall]
      rw [(buildOptions_fields method (defaultBody body) h options hb).2]
      exact hmerge
  · intro hbody
    have hex : ∃ options, buildOptions method (defaultBody body) h = .ok options := by
      rcases hbody with hf | ⟨text, htext⟩
      · exact ⟨_, buildOptions_of_falsy method (defaultBody body) h hf⟩
      · cases ht : truthy (defaultBody body) with
        | false => exact ⟨_, buildOptions_of_falsy method (defaultBody body) h ht⟩
        | true =>
          refine ⟨{ method := method,
                    headers := JsObject.spread [("Content-Type", "application/json")] h,
                    body := text }, ?_⟩
          rw [buildOptions_of_truthy method (defaultBody body) h ht, htext]
    obtain ⟨options, hb⟩ := hex
    refine ⟨options, fetchCalls_apiRequest host url method body h options hb, ?_⟩
    rw [(buildOptions_fields method (defaultBody body) h options hb).2]
    exact hmerge

/-- C4 (witness): caller headers that add `Authorization` and override
`Content-Type`. -/
theorem apiRequest_headers_merge_witness :
    (JsObject.keys [("Authorization", "Bearer t"), ("Content-Type", "text/plain")]).Nodup ∧
    ∃ options,
      fetchCalls (apiRequest (hostReturning (.ok (okResponse .null))) "/items" "GET" .null
        [("Authorization", "Bearer t"), ("Content-Type", "text/plain")]).1 =
          [("/items", options)] ∧
      (∀ k v, JsObject.get [("Authorization", "Bearer t"), ("Content-Type", "text/plain")] k
          = some v → JsObject.get options.headers k = some v) ∧
      (JsObject.get [("Authorization", "Bearer t"), ("Content-Type", "text/plain")]
          "Content-Type" = none →
        JsObject.get options.headers "Content-Type" = some "application/json") ∧
      (∀ k, JsObject.get [("Authorization", "Bearer t"), ("Content-Type", "text/plain")] k
          = none → k ≠ "Content-Type" → JsObject.get options.headers k = none) :=
  ⟨by decide,
    (apiRequest_headers_merge (hostReturning (.ok (okResponse .null))) "/items" "GET" .null
      [("Authorization", "Bearer t"), ("Content-Type", "text/plain")] (by decide)).2
      (Or.inl rfl)⟩

/-- C5: when the transport completes with a success response, `apiRequest`
returns exactly the value the body decodes to, and fails (with the decode
error) when the body does not decode. -/
theorem apiRequest_success (host : Host) (url method : String) (body : JsValue)
    (headers : JsObject String) (options : RequestInit) (response : Response)
    (hoptions : buildOptions method (defaultBody body) headers = .ok options)
    (hfetch : host.fetch url options = .ok response)
    (hok : response.ok = true) :
    (∀ x, response.json = .ok x → (apiRequest host url method body headers).2 = .ok x) ∧
    (∀ e, response.json = .error e →
      (apiRequest host url method body headers).2 = .error e) := by
  have hr : handleResponse response = response.json := handleResponse_of_ok response hok
  constructor
  · intro x hx
    rw [apiRequest_of_response_ok host url method body headers options response x
      hoptions hfetch (hr.trans hx)]
  · intro e he
    rw [apiRequest_of_response_error host url method body headers options response e
      hoptions hfetch (hr.trans he)]

/-- C5 (witness): a 200 response whose body decodes to `\x7b"id":7\x7d` is
returned unchanged, and a 200 response whose body is not JSON makes the call
fail. -/
theorem apiRequest_success_witness :
    (apiRequest (hostReturning (.ok (okResponse (.obj [("id", .num ⟨7, by decide⟩)]))))
        "/items/7" "GET" .undefined []).2 = .ok (.obj [("id", .num ⟨7, by decide⟩)]) ∧
    (apiRequest (hostReturning (.ok brokenOkResponse)) "/items/7" "GET" .undefined []).2 =
        .error { name := "SyntaxError", message := "Unexpected end of JSON input" } :=
  ⟨(apiRequest_success (hostReturning (.ok (okResponse (.obj [("id", .num ⟨7, by decide⟩)]))))
      "/items/7" "GET" .undefined []
      { method := "GET", headers := [("Content-Type", "application/json")], body := none }
      (okResponse (.obj [("id", .num ⟨7, by decide⟩)])) rfl rfl rfl).1 _ rfl,
   (apiRequest_success (hostReturning (.ok brokenOkResponse)) "/items/7" "GET" .undefined []
      { method := "GET", headers := [("Content-Type", "application/json")], body := none }
      brokenOkResponse rfl rfl rfl).2 _ rfl⟩

theorem apiRequest_shape (host : Host) (url method : String) (body : JsValue)
    (headers : JsObject String) :
    (∃ e events, apiRequest host url method body headers =
        (events ++ [Event.consoleError "API request error:" e], .error e) ∧
        errorRecords events = []) ∨
    (∃ x events, apiRequest host url method body headers = (events, .ok x) ∧
        errorRecords events = []) := by
  cases hb : buildOptions method (defaultBody body) headers with
  | error e =>
    exact Or.inl ⟨e, [], apiRequest_of_build_error host url method body headers e hb, rfl⟩
  | ok options =>
    cases hf : host.fetch url options with
    | error e =>
      exact Or.inl ⟨e, [Event.fetch url options],
        apiRequest_of_fetch_error host url method body headers options e hb hf, rfl⟩
    | ok response =>
      cases hr : handleResponse response with
      | error e =>
        exact Or.inl ⟨e, [Event.fetch url options],
          apiRequest_of_response_error host url method body headers options response e
            hb hf hr, rfl⟩
      | ok x =>
        exact Or.inr ⟨x, [Event.fetch url options],
          apiRequest_of_response_ok host url method body headers options response x
            hb hf hr, rfl⟩

theorem errorRecords_append_consoleError (events : List Event) (label : String)
    (e : JsError) :
    errorRecords (events ++ [Event.consoleError label e]) =
      errorRecords events ++ [(label, e)] := by
  induction events with
  | nil => rfl
  | cons ev rest ih =>
    cases ev <;> simp [errorRecords, ih]

/-- C6: every failing invocation of `apiRequest` writes exactly one diagnostic
record, `API request error:` with the error, as its last effect, and fails with
that same error, and a succeeding invocation writes none; a transport failure,
a non-success status and a decode failure each make the invocation fail in this
way, with the error of the transport, the error raised for the status, or the
decode error. -/
theorem apiRequest_logs_then_rethrows (host : Host) (url method : String) (body : JsValue)
    (headers : JsObject String) :
    (∀ e, (apiRequest host url method body headers).2 = .error e →
      errorRecords (apiRequest host url method body headers).1 = [("API request error:", e)] ∧
      (apiRequest host url method body headers).1.getLast? =
        some (Event.consoleError "API request error:" e)) ∧
    (∀ x, (apiRequest host url method body headers).2 = .ok x →
      errorRecords (apiRequest host url method body headers).1 = []) ∧
    (∀ options e, buildOptions method (defaultBody body) headers = .ok options →
      host.fetch url options = .error e →
      apiRequest host url method body headers =
        ([Event.fetch url options, Event.consoleError "API request error:" e], .error e)) ∧
    (∀ options response, buildOptions method (defaultBody body) headers = .ok options →
      host.fetch url options = .ok response → response.ok = false →
      ∃ e, apiRequest host url method body headers =
        ([Event.fetch url options, Event.consoleError "API request error:" e], .error e)) ∧
    (∀ options response e, buildOptions method (defaultBody body) headers = .ok options →
      host.fetch url options = .ok response → response.json = .error e →
      apiRequest host url method body headers =
        ([Event.fetch url options, Event.consoleError "API request error:" e], .error e)) := by
  refine ⟨?_, ?_, ?_, ?_, ?_⟩
  · intro e he
    rcases apiRequest_shape host url method body headers with
      ⟨e0, events, heq, hrec⟩ | ⟨x, events, heq, _⟩
    · rw [heq] at he ⊢
      have hee : e0 = e := Except.error.inj he
      subst hee
      exact ⟨by rw [errorRecords_append_consoleError, hrec]; rfl, by simp⟩
    · rw [heq] at he
      cases he
  · intro x hx
    rcases apiRequest_shape host url method body headers with
      ⟨e0, events, heq, _⟩ | ⟨x0, events, heq, hrec⟩
    · rw [heq] at hx
      cases hx
    · rw [heq]
      exact hrec
  · intro options e hb hf
    exact apiRequest_of_fetch_error host url method body headers options e hb hf
  · intro options response hb hf hok
    obtain ⟨e, hr⟩ := handleResponse_of_not_ok response hok
    exact ⟨e, apiRequest_of_response_error host url method body headers options response e
      hb hf hr⟩
  · intro options response e hb hf hj
    exact apiRequest_of_response_error host url method body headers options response e
      hb hf (handleResponse_of_json_error response e hj)

/-- C6 (witness): a transport failure `TypeError: Failed to fetch`, a 404
response and a 200 response whose body is not JSON. -/
theorem apiRequest_logs_then_rethrows_witness :
    apiRequest (hostReturning (.error ⟨"TypeError", "Failed to fetch"⟩)) "/items" "DELETE"
        .null [] =
      ([Event.fetch "/items"
          { method := "DELETE", headers := [("Content-Type", "application/json")],
            body := none },
        Event.consoleError "API request error:" ⟨"TypeError", "Failed to fetch"⟩],
       .error ⟨"TypeError", "Failed to fetch"⟩) ∧
    (∃ e, apiRequest (hostReturning (.ok notFoundResponse)) "/items/7" "GET" .null [] =
      ([Event.fetch "/items/7"
          { method := "GET", headers := [("Content-Type", "application/json")], body := none },
        Event.consoleError "API request error:" e], .error e)) ∧
    apiRequest (hostReturning (.ok brokenOkResponse)) "/items/7" "GET" .null [] =
      ([Event.fetch "/items/7"
          { method := "GET", headers := [("Content-Type", "application/json")], body := none },
        Event.consoleError "API request error:"
          ⟨"SyntaxError", "Unexpected end of JSON input"⟩],
       .error ⟨"SyntaxError", "Unexpected end of JSON input"⟩) :=
  ⟨(apiRequest_logs_then_rethrows (hostReturning (.error ⟨"TypeError", "Failed to fetch"⟩))
      "/items" "DELETE" .null []).2.2.1 _ _ rfl rfl,
   (apiRequest_logs_then_rethrows (hostReturning (.ok notFoundResponse))
      "/items/7" "GET" .null []).2.2.2.1 _ _ rfl rfl rfl,
   (apiRequest_logs_then_rethrows (hostReturning (.ok brokenOkResponse))
      "/items/7" "GET" .null []).2.2.2.2 _ _ _ rfl rfl rfl⟩

/-- C7 (counterexample): with a `BigInt` body, `JSON.stringify` throws inside
the `try` block before `fetch` is reached: the transport is not invoked at
all, and the call fails with that `TypeError`. -/
theorem apiRequest_bigint_body_counterexample :
    apiRequest (hostReturning (.ok (okResponse .null))) "/items" "POST" (.bigint 10) =
      ([Event.consoleError "API request error:"
          ⟨"TypeError", "Do not know how to serialize a BigInt"⟩],
       .error ⟨"TypeError", "Do not know how to serialize a BigInt"⟩) ∧
    (fetchCalls (apiRequest (hostReturning (.ok (okResponse .null))) "/items" "POST"
      (.bigint 10)).1).length = 0 :=
  ⟨rfl, rfl⟩

/-- C7 (amended): whenever the body is falsy or `JSON.stringify(body)` returns,
`apiRequest` hands exactly one request to the transport, whatever the transport
answers, and when the transport itself fails with `e` the call fails with `e`
after that single attempt; when `JSON.stringify(body)` throws, the transport is
not invoked and the call fails with the error thrown. -/
theorem apiRequest_single_fetch (host : Host) (url method : String) (body : JsValue)
    (headers : JsObject String) :
    ((truthy (defaultBody body) = false ∨
        ∃ text, jsonStringify (defaultBody body) = .ok text) →
      ∃ options, fetchCalls (apiRequest host url method body headers).1 = [(url, options)] ∧
        (∀ e, host.fetch url options = .error e →
          apiRequest host url method body headers =
            ([Event.fetch url options, Event.consoleError "API request error:" e],
              .error e))) ∧
    (∀ e, truthy (defaultBody body) = true → jsonStringify (defaultBody body) = .error e →
      fetchCalls (apiRequest host url method body headers).1 = [] ∧
      (apiRequest host url method body headers).2 = .error e) := by
  constructor
  · intro hbody
    have hex : ∃ options, buildOptions method (defaultBody body) headers = .ok options := by
      rcases hbody with hf | ⟨text, htext⟩
      · exact ⟨_, buildOptions_of_falsy method (defaultBody body) headers hf⟩
      · cases ht : truthy (defaultBody body) with
        | false => exact ⟨_, buildOptions_of_falsy method (defaultBody body) headers ht⟩
        | true =>
          refine ⟨{ method := method,
                    headers := JsObject.spread [("Content-Type", "application/json")] headers,
                    body := text }, ?_⟩
          rw [buildOptions_of_truthy method (defaultBody body) headers ht, htext]
    obtain ⟨options, hb⟩ := hex
    exact ⟨options, fetchCalls_apiRequest host url method body headers options hb,
      fun e hf => apiRequest_of_fetch_error host url method body headers options e hb hf⟩
  · intro e ht hs
    have hb : buildOptions method (defaultBody body) headers = .error e := by
      rw [buildOptions_of_truthy method (defaultBody body) headers ht, hs]
    rw [apiRequest_of_build_error host url method body headers e hb]
    exact ⟨rfl, rfl⟩

/-- C7 (witness): a transport that fails with `TypeError: Failed to fetch` on a
request without body. -/
theorem apiRequest_single_fetch_witness :
    ∃ options,
      fetchCalls (apiRequest (hostReturning (.error ⟨"TypeError", "Failed to fetch"⟩)) "/items"
        "GET" .undefined []).1 = [("/items", options)] ∧
      (∀ e, (hostReturning (.error ⟨"TypeError", "Failed to fetch"⟩)).fetch "/items" options
          = .error e →
        apiRequest (hostReturning (.error ⟨"TypeError", "Failed to fetch"⟩)) "/items"
          "GET" .undefined [] =
          ([Event.fetch "/items" options, Event.consoleError "API request error:" e],
            .error e)) :=
  (apiRequest_single_fetch (hostReturning (.error ⟨"TypeError", "Failed to fetch"⟩)) "/items"
    "GET" .undefined []).1 (Or.inl rfl)

end Utils

/-! ## Properties of the authentication wrappers -/

namespace Firebase

open Utils

/-- C9 (counterexample): when the identity provider's `signOut` fails,
`signOutUser` returns the normal value `false` instead of raising the error. -/
theorem signOutUser_failure_counterexample :
    signOutUser (.error ⟨"FirebaseError", "auth/network-request-failed"⟩) =
      ([Event.consoleError "Error signing out: "
          ⟨"FirebaseError", "auth/network-request-failed"⟩], .ok false) :=
  rfl

/-- C9 (amended): when the identity-provider call fails with `e`, `signInUser`
logs `Error signing in: ` with `e` and then fails with `e`, while `signOutUser`
logs `Error signing out: ` with `e` and then returns `false`. -/
theorem signIn_signOut_failure
    (signInWithEmailAndPassword : String → String → Except JsError UserCredential)
    (email password : String) (e : JsError)
    (hfail : signInWithEmailAndPassword email password = .error e) :
    signInUser signInWithEmailAndPassword email password =
      ([Event.consoleError "Error signing in: " e], .error e) ∧
    signOutUser (.error e) = ([Event.consoleError "Error signing out: " e], .ok false) := by
  refine ⟨?_, rfl⟩
  unfold signInUser
  rw [hfail]

/-- C9 (witness): a sign-in rejected for wrong credentials. -/
theorem signIn_signOut_failure_witness :
    signInUser (fun _ _ => .error ⟨"FirebaseError", "auth/invalid-credential"⟩)
        "ada@example.com" "hunter2" =
      ([Event.consoleError "Error signing in: " ⟨"FirebaseError", "auth/invalid-credential"⟩],
        .error ⟨"FirebaseError", "auth/invalid-credential"⟩) :=
  (signIn_signOut_failure (fun _ _ => .error ⟨"FirebaseError", "auth/invalid-credential"⟩)
    "ada@example.com" "hunter2" ⟨"FirebaseError", "auth/invalid-credential"⟩ rfl).1

end Firebase
